import Mathlib

set_option maxRecDepth 100000

/-!
# Verification of the tier reconciliation / cross-venue aggregation engine

Shallow embedding of the core of the `currency_leverage_collection` repository:

* `tableMake/make_suggest_rules.py`  (namespace `MakeRules`)
* `streamlit_app.py`                 (namespace `StApp`)
* `tableMake/tableMake.py`           (namespace `TableMake`)

Modelling conventions:

* Python floats are modelled as exact rationals (`ℚ`).  All arithmetic the
  claims exercise is comparisons, `min`/`max`, multiplication by small decimal
  constants and exact divisions, for which the rational model agrees with the
  binary-float computation on every input used in a theorem below.
* JSON scalars appearing in tier rows are modelled by `Cell`
  (`null` / number / string), matching the payload produced by
  `tableMake.py` and consumed by both rule generators.
* Python `float(s)` is modelled by `pyFloat` over the decimal grammar
  `[ws] [sign] (digits [. digits*] | . digits+) [(e|E) [sign] digits+] [ws]`.
  The `inf`/`nan` spellings and `_` digit separators accepted by Python are
  not modelled (they are mapped to `none`); no claim exercises them.
* `re.search(r"[-+]?[0-9]*\.?[0-9]+", s)` is modelled by `searchNum`, a
  direct implementation of the leftmost-match-with-backtracking semantics of
  that particular pattern.
* Python `round` is round-half-to-even (`roundHalfEven`); `f"{x:.2f}"` and
  `f"{x:.6f}"` are modelled as decimal round-half-even of the rational value.
-/

/-- A JSON scalar as it appears in a tier row of the payload. -/
inductive Cell where
  | null : Cell
  | num : ℚ → Cell
  | str : String → Cell
deriving DecidableEq

/-- One parsed tier: `(leverage, notional-cap position, maintenance margin rate)`. -/
structure TierT where
  lev : ℚ
  pos : ℚ
  mmr : ℚ
deriving DecidableEq

/-! ## Character and string utilities (Python `str` methods on `List Char`) -/

/-- Python `str.strip()`: remove leading and trailing whitespace. -/
def pytrim (cs : List Char) : List Char :=
  ((cs.dropWhile Char.isWhitespace).reverse.dropWhile Char.isWhitespace).reverse

/-- Split a character list into its maximal leading digit run and the rest. -/
def spanDigits (cs : List Char) : List Char × List Char :=
  (cs.takeWhile Char.isDigit, cs.dropWhile Char.isDigit)

/-- Numeric value of a digit character. -/
def digitVal (c : Char) : ℕ := c.toNat - '0'.toNat

/-- Value of a digit string read in base 10. -/
def digitsToNat (cs : List Char) : ℕ :=
  cs.foldl (fun a c => 10 * a + digitVal c) 0

/-- A match of the pattern `[-+]?[0-9]*\.?[0-9]+`: optional sign character,
integer-part digits and fractional-part digits.  The fractional part is
nonempty exactly when the matched text contains a decimal point. -/
structure NumLit where
  sign : Option Char
  ip : List Char
  fp : List Char
deriving DecidableEq

/-- Rational value of a matched numeric literal. -/
def NumLit.val (n : NumLit) : ℚ :=
  let mag : ℚ := (digitsToNat n.ip : ℚ) + (digitsToNat n.fp : ℚ) / (10 : ℚ) ^ n.fp.length
  if n.sign = some '-' then -mag else mag

/-- The exact text of a matched numeric literal (`m.group(0)` in Python). -/
def NumLit.text (n : NumLit) : List Char :=
  (match n.sign with | some c => [c] | none => []) ++
    n.ip ++ (if n.fp.isEmpty then [] else '.' :: n.fp)

/-- Match `[0-9]*\.?[0-9]+` at the head of `cs`, with the backtracking
semantics of Python's `re`: greedy digits, then an optional dot only if at
least one digit follows it; otherwise fall back to the digit run alone. -/
def matchNumCore (cs : List Char) : Option NumLit :=
  let d := (spanDigits cs).1
  match (spanDigits cs).2 with
  | '.' :: rest2 =>
    let e := (spanDigits rest2).1
    if e.isEmpty then
      if d.isEmpty then none else some ⟨none, d, []⟩
    else some ⟨none, d, e⟩
  | _ => if d.isEmpty then none else some ⟨none, d, []⟩

/-- Match `[-+]?[0-9]*\.?[0-9]+` anchored at the head of `cs`. -/
def matchNumAt (cs : List Char) : Option NumLit :=
  match cs with
  | [] => none
  | c :: rest =>
    if c = '+' ∨ c = '-' then
      (matchNumCore rest).map (fun n => { n with sign := some c })
    else matchNumCore (c :: rest)

/-- `re.search(r"[-+]?[0-9]*\.?[0-9]+", ·)`: leftmost match of the pattern. -/
def searchNum : List Char → Option NumLit
  | [] => none
  | c :: rest =>
    match matchNumAt (c :: rest) with
    | some n => some n
    | none => searchNum rest

/-- Value of the first numeric pattern found in the text, if any. -/
def regexNum (cs : List Char) : Option ℚ :=
  (searchNum cs).map NumLit.val

/-! ## Python `float(s)` on the decimal grammar -/

/-- Helper for `pyFloat`: parse an optional exponent suffix after the
mantissa `m` and require the input to be exhausted. -/
def pyFloatExp (m : ℚ) (cs : List Char) : Option ℚ :=
  match cs with
  | [] => some m
  | c :: rest =>
    if c = 'e' ∨ c = 'E' then
      let (eneg, rest1) :=
        match rest with
        | '+' :: t => (false, t)
        | '-' :: t => (true, t)
        | t => (false, t)
      let ed := (spanDigits rest1).1
      if ed.isEmpty ∨ ¬(spanDigits rest1).2.isEmpty then none
      else
        let k := digitsToNat ed
        some (if eneg then m / (10 : ℚ) ^ k else m * (10 : ℚ) ^ k)
    else none

/-- Python `float(s)` restricted to the decimal grammar (see header). -/
def pyFloat (cs0 : List Char) : Option ℚ :=
  let cs := pytrim cs0
  let (neg, cs1) :=
    match cs with
    | '+' :: t => (false, t)
    | '-' :: t => (true, t)
    | t => (false, t)
  let d := (spanDigits cs1).1
  let r1 := (spanDigits cs1).2
  let res :=
    match r1 with
    | '.' :: r2 =>
      let e := (spanDigits r2).1
      if d.isEmpty ∧ e.isEmpty then none
      else pyFloatExp ((digitsToNat d : ℚ) + (digitsToNat e : ℚ) / (10 : ℚ) ^ e.length)
        (spanDigits r2).2
    | _ => if d.isEmpty then none else pyFloatExp (digitsToNat d : ℚ) r1
  res.map (fun q => if neg then -q else q)

/-! ## Rounding and display formatting -/

/-- Python `round` to an integer: round half to even. -/
def roundHalfEven (q : ℚ) : ℤ :=
  let f := ⌊q⌋
  let r := q - (f : ℚ)
  if r < 1 / 2 then f
  else if 1 / 2 < r then f + 1
  else if f % 2 = 0 then f else f + 1

/-- Decimal string of an integer. -/
def intStr (n : ℤ) : String :=
  (if n < 0 then "-" else "") ++ Nat.repr n.natAbs

/-- Pad a natural below 100 to two digits. -/
def pad2 (k : ℕ) : String :=
  if k < 10 then "0" ++ Nat.repr k else Nat.repr k

/-- Python `f"{q:.2f}"` on the rational model. -/
def fmt2s (q : ℚ) : String :=
  let n := roundHalfEven (q * 100)
  let a := n.natAbs
  (if n < 0 then "-" else "") ++ Nat.repr (a / 100) ++ "." ++ pad2 (a % 100)

/-- Pad a natural below `10^6` to six digits. -/
def pad6 (k : ℕ) : List Char :=
  let d := (Nat.repr k).data
  List.replicate (6 - d.length) '0' ++ d

/-- Python `f"{q:.6f}".rstrip('0').rstrip('.')` on the rational model. -/
def fmt6strip (q : ℚ) : String :=
  let n := roundHalfEven (q * 1000000)
  let a := n.natAbs
  let fp := (pad6 (a % 1000000)).reverse.dropWhile (· = '0') |>.reverse
  (if n < 0 then "-" else "") ++ Nat.repr (a / 1000000) ++
    (if fp.isEmpty then "" else "." ++ String.mk fp)

/-! ## Rows and payloads

`tableMake.py` emits, per symbol and venue, rows
`[ex_name, leverage_display, notional_cap, margin_rate_display]`; the JSON
payload maps symbol → venue → row list. -/

abbrev Row := List Cell
abbrev ExMap := List (String × List Row)
abbrev Payload := List (String × ExMap)

/-- `dict.get` on a JSON object modelled as an association list. -/
def alookup {α : Type} (l : List (String × α)) (k : String) : Option α :=
  (l.find? (fun p => p.1 = k)).map (fun p => p.2)

/-- `payload.get(sym, {}).get(ex, []) or []`. -/
def rowsOf (payload : Payload) (sym ex : String) : List Row :=
  (alookup ((alookup payload sym).getD []) ex).getD []

/-! ## `tableMake/make_suggest_rules.py` -/

namespace MakeRules

/-- The venues competed into the aggregate (`EXS_SHOW`). -/
def EXS_SHOW : List String := ["BINANCE", "WEEX", "MECX", "BYBIT"]

/-- `MAJOR_TIERS`. -/
def MAJOR_TIERS : List ℚ := [50000, 200000, 500000, 1000000]

/-- `MINOR_TIERS`. -/
def MINOR_TIERS : List ℚ := [20000, 100000, 200000]

/-- `_num` applied to a string: `str(v).replace(",", "").strip()` then
`float(s)` (`None` on failure or empty string). -/
def numStr (cs : List Char) : Option ℚ :=
  let cs1 := pytrim (cs.filter (fun c => c ≠ ','))
  if cs1.isEmpty then none else pyFloat cs1

/-- `_num(v)` of `make_suggest_rules.py`. -/
def num (v : Cell) : Option ℚ :=
  match v with
  | Cell.null => none
  | Cell.num q => some q
  | Cell.str s => numStr s.data

/-- `_mmr_to_float(v)` of `make_suggest_rules.py`: percent strings are divided
by 100 via `float`, otherwise `_num`. -/
def mmr_to_float (v : Cell) : Option ℚ :=
  match v with
  | Cell.null => none
  | Cell.num q => some q
  | Cell.str s =>
    let cs := pytrim s.data
    if cs.getLast? = some '%' then
      match pyFloat (cs.reverse.dropWhile (fun c => c = '%')).reverse with
      | some x => some (x / 100)
      | none => none
    else numStr cs

/-- `_lev_to_float(v)` of `make_suggest_rules.py`:
`str(v).upper().replace(" ", "").strip()`, drop one trailing `X`, then `_num`. -/
def lev_to_float (v : Cell) : Option ℚ :=
  match v with
  | Cell.null => none
  | Cell.num q => some q
  | Cell.str s =>
    let cs := pytrim ((s.data.map Char.toUpper).filter (fun c => c ≠ ' '))
    let cs2 := if cs.getLast? = some 'X' then cs.dropLast else cs
    numStr cs2

/-- The body of the parsing loop of `_select_tier_for_threshold`: a row
shorter than 4 cells, or any unparseable field, is dropped. -/
def parseRow (r : Row) : Option TierT :=
  match r with
  | _ :: b :: c :: d :: _ =>
    match lev_to_float b, num c, mmr_to_float d with
    | some lev, some pos, some mmr => some ⟨lev, pos, mmr⟩
    | _, _, _ => none
  | _ => none

/-- The parsed tier list of `_select_tier_for_threshold`. -/
def parsedRows (rows : List Row) : List TierT :=
  rows.filterMap parseRow

/-- Descending-by-cap comparison used by the tier sorts. -/
def tierGE (a b : TierT) : Prop := b.pos ≤ a.pos

instance : DecidableRel tierGE := fun a b => inferInstanceAs (Decidable (b.pos ≤ a.pos))

instance : IsTotal TierT tierGE := ⟨fun a b => le_total b.pos a.pos⟩

instance : IsTrans TierT tierGE := ⟨fun _ _ _ h1 h2 => le_trans h2 h1⟩

/-- `parsed.sort(key=lambda t: t[1], reverse=True)`: stable sort, descending
by notional cap.  `List.insertionSort` is stable with the same tie order as
Python's sort. -/
def sortPosDesc (l : List TierT) : List TierT :=
  l.insertionSort tierGE

/-- `_select_tier_for_threshold(rows, S)` of `make_suggest_rules.py`: the scan
keeps updating `chosen` while `pos >= S` and breaks at the first `pos < S`,
so `chosen` is the last element of the `pos >= S` prefix of the sorted list. -/
def select_tier_for_threshold (rows : List Row) (S : ℚ) : Option (ℚ × ℚ) :=
  let parsed := parsedRows rows
  if parsed.isEmpty then none
  else
    (((sortPosDesc parsed).takeWhile (fun t => S ≤ t.pos)).getLast?).map
      (fun t => (t.lev, t.mmr))

/-- The running state of `_street_for_symbol`:
`(max_lev_val, max_lev_src, min_mmr_val, min_mmr_src)`. -/
structure Street4 where
  maxLev : Option ℚ
  maxSrc : Option String
  minMmr : Option ℚ
  minSrc : Option String
deriving DecidableEq

/-- `if lev is not None and (max_lev_val is None or lev > max_lev_val)`:
the max-leverage update of `_street_for_symbol` (`lev` is never `None` for a
pick). -/
def updMax (st : Street4) (ex : String) (lev : ℚ) : Street4 :=
  match st.maxLev with
  | none => { st with maxLev := some lev, maxSrc := some ex }
  | some v =>
    if v < lev then { st with maxLev := some lev, maxSrc := some ex } else st

/-- `if mmr is not None and (min_mmr_val is None or mmr < min_mmr_val)`:
the min-mmr update of `_street_for_symbol`. -/
def updMin (st : Street4) (ex : String) (mmr : ℚ) : Street4 :=
  match st.minMmr with
  | none => { st with minMmr := some mmr, minSrc := some ex }
  | some v =>
    if mmr < v then { st with minMmr := some mmr, minSrc := some ex } else st

/-- One iteration of the venue loop of `_street_for_symbol`. -/
def streetStep (payload : Payload) (sym : String) (S : ℚ) (st : Street4)
    (ex : String) : Street4 :=
  match select_tier_for_threshold (rowsOf payload sym ex) S with
  | none => st
  | some (lev, mmr) => updMin (updMax st ex lev) ex mmr

/-- `_street_for_symbol(payload, sym, S)` of `make_suggest_rules.py`. -/
def street_for_symbol (payload : Payload) (sym : String) (S : ℚ) : Street4 :=
  EXS_SHOW.foldl (streetStep payload sym S) ⟨none, none, none, none⟩

/-- The per-venue picks of `_street_for_symbol`, in venue order. -/
def picks (payload : Payload) (sym : String) (S : ℚ) : List (String × ℚ × ℚ) :=
  EXS_SHOW.filterMap (fun ex =>
    (select_tier_for_threshold (rowsOf payload sym ex) S).map (fun p => (ex, p)))

/-- `_build_groups()` of `make_suggest_rules.py`, with the file contents as
parameters: `cmcNames` is the list of `name` fields of `cmc_top20.json`,
`pairs` the `(base, quote)` pairs of `surf_pairs.json`. -/
def upperTrim (s : String) : String :=
  String.mk (pytrim (s.data.map Char.toUpper))

/-- Major candidates: `f"{name.upper().strip()}USDT"` for nonempty names. -/
def cmcMajors (cmcNames : List String) : List String :=
  cmcNames.filterMap (fun n =>
    let s := upperTrim n
    if s ≠ "" then some (s ++ "USDT") else none)

/-- All tradable USDT symbols: `f"{base}{quote}"` for nonempty upper-cased
bases with quote `USDT`. -/
def allSyms (pairs : List (String × String)) : List String :=
  pairs.filterMap (fun p =>
    let b := upperTrim p.1
    let q := upperTrim p.2
    if b ≠ "" ∧ q = "USDT" then some (b ++ q) else none)

/-- `_build_groups`: majors are cmc names also tradable; minors are
`sorted(set(all_syms) - set(majors))`. -/
def build_groups (cmcNames : List String) (pairs : List (String × String)) :
    List String × List String :=
  let majors := (cmcMajors cmcNames).filter (fun s => s ∈ allSyms pairs)
  let minors :=
    (((allSyms pairs).dedup.filter (fun s => s ∉ majors)).insertionSort
      (fun a b => a ≤ b))
  (majors, minors)

end MakeRules

/-! ## `streamlit_app.py` -/

namespace StApp

/-- `EXS_SHOW` (also the `exs` list of `build_aggregate_union_table`). -/
def EXS_SHOW : List String := ["BINANCE", "WEEX", "MECX", "BYBIT"]

/-- `MAJOR_TIERS`. -/
def MAJOR_TIERS : List ℚ := [50000, 200000, 500000, 1000000]

/-- `MINOR_TIERS`. -/
def MINOR_TIERS : List ℚ := [20000, 100000, 200000]

/-- `ALPHA_TOP = 0.40`. -/
def ALPHA_TOP : ℚ := 2 / 5

/-- `ALPHA_MID = 0.50`. -/
def ALPHA_MID : ℚ := 1 / 2

/-- `LEV_MAX = 1000`. -/
def LEV_MAX : ℚ := 1000

/-- `LEV_STEP = 5`. -/
def LEV_STEP : ℚ := 5

/-- `MMR_FLOOR = 0.0002`. -/
def MMR_FLOOR : ℚ := 1 / 5000

/-- `_num(v)` of `streamlit_app.py`: strip, then the first regex number. -/
def num (v : Cell) : Option ℚ :=
  match v with
  | Cell.null => none
  | Cell.num q => some q
  | Cell.str s =>
    let cs := pytrim s.data
    if cs.isEmpty then none else regexNum cs

/-- `_num` applied to an already-character-level string. -/
def numStr (cs : List Char) : Option ℚ :=
  let cs1 := pytrim cs
  if cs1.isEmpty then none else regexNum cs1

/-- `_lev_to_float(v)` of `streamlit_app.py`: strip, upper, remove spaces,
remove every `X`, then `_num`. -/
def lev_to_float (v : Cell) : Option ℚ :=
  match v with
  | Cell.null => none
  | Cell.num q => some q
  | Cell.str s =>
    let cs := ((pytrim s.data).map Char.toUpper).filter (fun c => c ≠ ' ')
    numStr (cs.filter (fun c => c ≠ 'X'))

/-- `_mmr_to_float(v)` of `streamlit_app.py`. -/
def mmr_to_float (v : Cell) : Option ℚ :=
  match v with
  | Cell.null => none
  | Cell.num q => some q
  | Cell.str s =>
    let cs := pytrim s.data
    if cs.getLast? = some '%' then
      match pyFloat (cs.reverse.dropWhile (fun c => c = '%')).reverse with
      | some x => some (x / 100)
      | none => none
    else numStr cs

/-- `_round_leverage(x)`: clamp to `[1, LEV_MAX]`, then round to the nearest
multiple of `LEV_STEP` (Python `round`, half to even). -/
def round_leverage (x : ℚ) : ℚ :=
  ((roundHalfEven (min LEV_MAX (max 1 x) / LEV_STEP) : ℤ) : ℚ) * LEV_STEP

/-- Row parsing of `_select_tier_for_threshold` of `streamlit_app.py`. -/
def parseRow (r : Row) : Option TierT :=
  match r with
  | _ :: b :: c :: d :: _ =>
    match lev_to_float b, num c, mmr_to_float d with
    | some lev, some pos, some mmr => some ⟨lev, pos, mmr⟩
    | _, _, _ => none
  | _ => none

/-- The parsed tier list. -/
def parsedRows (rows : List Row) : List TierT :=
  rows.filterMap parseRow

/-- The adjacent-pair scan of `_select_tier_for_threshold`:
`for i in range(len(parsed) - 1): if pos_i >= S and pos_{i+1} < S: return i`. -/
def scanPairs (S : ℚ) : List TierT → Option (ℚ × ℚ)
  | a :: b :: t =>
    if S ≤ a.pos ∧ b.pos < S then some (a.lev, a.mmr) else scanPairs S (b :: t)
  | _ => none

/-- `_select_tier_for_threshold(rows, S)` of `streamlit_app.py`: if
`S >= parsed[0][1]` (the largest cap) return the first sorted tier, else
return the tier at the cap boundary, else `None`. -/
def select_tier_for_threshold (rows : List Row) (S : ℚ) : Option (ℚ × ℚ) :=
  let parsed := parsedRows rows
  if parsed.isEmpty then none
  else
    match MakeRules.sortPosDesc parsed with
    | [] => none
    | p :: rest => if p.pos ≤ S then some (p.lev, p.mmr) else scanPairs S (p :: rest)

/-- The per-venue picks collected by `_street_for_symbol`. -/
def picks (payload : Payload) (sym : String) (S : ℚ) : List (ℚ × ℚ) :=
  EXS_SHOW.filterMap (fun ex => select_tier_for_threshold (rowsOf payload sym ex) S)

/-- `max(levs)` / `min(mmrs)` over a possibly-empty list. -/
def maxQ : List ℚ → Option ℚ
  | [] => none
  | x :: t => some (t.foldl max x)

/-- `min` counterpart of `maxQ`. -/
def minQ : List ℚ → Option ℚ
  | [] => none
  | x :: t => some (t.foldl min x)

/-- `_street_for_symbol(payload, sym, S)` of `streamlit_app.py`:
`(max(levs) if levs else None, min(mmrs) if mmrs else None)`. -/
def street_for_symbol (payload : Payload) (sym : String) (S : ℚ) :
    Option ℚ × Option ℚ :=
  (maxQ ((picks payload sym S).map Prod.fst),
   minQ ((picks payload sym S).map Prod.snd))

/-- One suggested tier of `build_suggest_rule_table`, numeric fields only
(the Python record additionally carries display strings of these values).
`im = 1.0 / sug_lev` raises `ZeroDivisionError` in Python when
`sug_lev == 0.0`; in the rational model `1 / 0 = 0` (see claim C4). -/
structure SRec where
  pos : ℚ
  lev : ℚ
  im : ℚ
  mmr : ℚ
  streetLev : Option ℚ
  streetMmr : Option ℚ
deriving DecidableEq

/-- The per-threshold body of `build_suggest_rule_table`.  `base_lev =
street_lev or 10.0` makes both an absent and a zero street leverage fall
back to 10. -/
def suggestRec (isTop : Bool) (S : ℚ) (street : Option ℚ × Option ℚ) : SRec :=
  let baseLev : ℚ :=
    match street.1 with
    | some l => if l = 0 then 10 else l
    | none => 10
  if isTop then
    let sugLev := round_leverage (baseLev * (11 / 10))
    let im := 1 / sugLev
    let mmrRule := max MMR_FLOOR (ALPHA_TOP * im)
    let mmrStreet := match street.2 with | some m => m | none => 1
    ⟨S, sugLev, im, min mmrRule (mmrStreet * (9 / 10)), street.1, street.2⟩
  else
    let sugLev := round_leverage (baseLev * (9 / 10))
    let im := 1 / sugLev
    let mmrRule := max MMR_FLOOR (ALPHA_MID * im)
    let sugMmr := match street.2 with | some m => min mmrRule m | none => mmrRule
    ⟨S, sugLev, im, sugMmr, street.1, street.2⟩

/-- `tiers = MAJOR_TIERS if sym in majors else MINOR_TIERS`. -/
def tiersFor (majors : List String) (sym : String) : List ℚ :=
  if sym ∈ majors then MAJOR_TIERS else MINOR_TIERS

/-- `build_suggest_rule_table(sym, payload)`, with the majors set (read from
`cmc_top20.json` by `_load_majors`) passed as a parameter. -/
def build_suggest_rule_table (majors : List String) (sym : String)
    (payload : Payload) : List SRec :=
  (tiersFor majors sym).enum.map (fun p =>
    suggestRec (p.1 = (tiersFor majors sym).length - 1) p.2
      (street_for_symbol payload sym p.2))

end StApp

namespace StApp

/-- One aggregate-union output row (numeric fields; the Python record holds
their display strings). -/
structure URec where
  lev : ℚ
  maxPos : Option ℚ
  maxPosEx : String
  minMmr : Option ℚ
  minMmrEx : String
deriving DecidableEq

/-- The `(lev, (ex, pos, mmr))` stream of `build_aggregate_union_table`:
rows shorter than 4 cells and rows with unparseable leverage are skipped;
`pos` and `mmr` stay optional. -/
def unionEntries (sym : String) (payload : Payload) :
    List (ℚ × String × Option ℚ × Option ℚ) :=
  EXS_SHOW.flatMap (fun ex =>
    (rowsOf payload sym ex).filterMap (fun r =>
      match r with
      | _ :: b :: c :: d :: _ =>
        (lev_to_float b).map (fun l => (l, ex, num c, mmr_to_float d))
      | _ => none))

/-- `by_lev.setdefault(lev, []).append(entry)`: dict keyed by the exact
leverage value, insertion-ordered. -/
def upsert (m : List (ℚ × List (String × Option ℚ × Option ℚ)))
    (l : ℚ) (e : String × Option ℚ × Option ℚ) :
    List (ℚ × List (String × Option ℚ × Option ℚ)) :=
  match m with
  | [] => [(l, [e])]
  | (k, es) :: t => if k = l then (k, es ++ [e]) :: t else (k, es) :: upsert t l e

/-- The `by_lev` dict after both loops. -/
def byLev (sym : String) (payload : Payload) :
    List (ℚ × List (String × Option ℚ × Option ℚ)) :=
  (unionEntries sym payload).foldl (fun m ent => upsert m ent.1 ent.2) []

/-- The max-position reduction of one bucket (strict `>` keeps the first
venue achieving the maximum). -/
def maxWithSrc (es : List (String × Option ℚ × Option ℚ)) : Option ℚ × String :=
  es.foldl (fun acc e =>
    match e.2.1 with
    | none => acc
    | some p =>
      match acc.1 with
      | none => (some p, e.1)
      | some v => if v < p then (some p, e.1) else acc) (none, "")

/-- The min-mmr reduction of one bucket. -/
def minWithSrc (es : List (String × Option ℚ × Option ℚ)) : Option ℚ × String :=
  es.foldl (fun acc e =>
    match e.2.2 with
    | none => acc
    | some m =>
      match acc.1 with
      | none => (some m, e.1)
      | some v => if m < v then (some m, e.1) else acc) (none, "")

/-- `build_aggregate_union_table(sym, payload)`: one record per `by_lev` key,
keys in ascending order. -/
def build_aggregate_union_table (sym : String) (payload : Payload) : List URec :=
  let m := byLev sym payload
  if m.isEmpty then []
  else
    (m.insertionSort (fun a b => a.1 ≤ b.1)).map (fun kv =>
      ⟨kv.1, (maxWithSrc kv.2).1, (maxWithSrc kv.2).2,
        (minWithSrc kv.2).1, (minWithSrc kv.2).2⟩)

end StApp

/-! ## `tableMake/tableMake.py` -/

namespace TableMake

/-- `parse_number(v)`: strip, first regex number, else `None`. -/
def parse_number (v : Cell) : Option ℚ :=
  match v with
  | Cell.null => none
  | Cell.num q => some q
  | Cell.str s => regexNum (pytrim s.data)

/-- `to_percent_str(v)`: blank when unparseable; percent strings are
reformatted to two decimals; other values are multiplied by 100. -/
def to_percent_str (v : Cell) : String :=
  match parse_number v with
  | none => ""
  | some n =>
    match v with
    | Cell.str s =>
      if (pytrim s.data).getLast? = some '%' then
        match pyFloat ((pytrim s.data).reverse.dropWhile (fun c => c = '%')).reverse with
        | some x => fmt2s x ++ "%"
        | none => s
      else fmt2s (n * 100) ++ "%"
    | _ => fmt2s (n * 100) ++ "%"

/-- `to_leverage_str(v)`: `'<number>X'`, keeping the source text of the
number when the input is a string. -/
def to_leverage_str (v : Cell) : String :=
  match v with
  | Cell.null => ""
  | Cell.str s =>
    if s.data.any (fun c => c.toLower = 'x') then
      let sclean := ((s.data.map Char.toLower).map
        (fun c => if c = 'x' then 'X' else c)).filter (fun c => c ≠ ' ')
      match searchNum sclean with
      | some m => String.mk m.text ++ "X"
      | none => String.mk sclean
    else
      match searchNum s.data with
      | some m => String.mk m.text ++ "X"
      | none => ""
  | Cell.num q =>
    if q.den = 1 then intStr q.num ++ "X" else fmt6strip q ++ "X"

/-- The characters after the first `~`. -/
def afterTilde : List Char → List Char
  | [] => []
  | c :: t => if c = '~' then t else afterTilde t

/-- `weex_range_upper(s)`: the number in the part after `~`, or of the whole
string. -/
def weex_range_upper (s : String) : Option ℚ :=
  if '~' ∈ s.data then parse_number (Cell.str (String.mk (afterTilde s.data)))
  else parse_number (Cell.str s)

/-- Python `or` on two optional numbers: `None` and `0.0` are falsy. -/
def pyOrOptQ (a b : Option ℚ) : Option ℚ :=
  match a with
  | some x => if x = 0 then b else some x
  | none => b

/-- Python truthiness of a JSON scalar. -/
def cellTruthy (c : Cell) : Bool :=
  match c with
  | Cell.null => false
  | Cell.num q => q ≠ 0
  | Cell.str s => s ≠ ""

/-- Python `a or b` on cells. -/
def pyOrCell (a b : Cell) : Cell :=
  if cellTruthy a then a else b

/-- Wrap an optional number as a row cell (`None` → JSON null). -/
def optCell : Option ℚ → Cell
  | none => Cell.null
  | some q => Cell.num q

/-- `parse_number(x.get(key)) or 0`, the sort key of the tier sorts. -/
def sortKey (c : Cell) : ℚ := (parse_number c).getD 0

/-- A raw binance tier as produced by `load_binance`
(`bracketNotionalCap` is kept because `build_rows_for_exchange` reads it as
a fallback; `load_binance` never sets it, so it is `null` in real data). -/
structure BnTier where
  mlev : Cell
  notional_usdt : Cell
  bracketNotionalCap : Cell
  mmr : Cell
deriving DecidableEq

/-- A raw mexc/surf tier. -/
structure MxTier where
  mlev : Cell
  notional_usdt : Cell
  mmr : Cell
deriving DecidableEq

/-- A raw bybit tier. -/
structure BbTier where
  maximumLever : Cell
  storingLocationValue : Cell
  maintenanceMarginRate : Cell
deriving DecidableEq

/-- A raw weex tier (`lv` is unused by `build_rows_for_exchange`). -/
structure WxTier where
  mlev : Cell
  range : Cell
  mmr : Cell
deriving DecidableEq

/-- The `ex == "binance"` branch of `build_rows_for_exchange`.  Note the
`or` fallback on the notional: a parsed `0.0` is falsy and falls through. -/
def build_rows_binance (tiers : List BnTier) : List Row :=
  let ts := tiers.insertionSort (fun a b => sortKey a.mlev ≤ sortKey b.mlev)
  let rows := ts.enum.map (fun p =>
    [Cell.str (if p.1 = 0 then "BINANCE" else ""),
     Cell.str (to_leverage_str p.2.mlev),
     optCell (pyOrOptQ (parse_number p.2.notional_usdt)
       (parse_number p.2.bracketNotionalCap)),
     Cell.str (to_percent_str p.2.mmr)])
  if rows.isEmpty then [[Cell.str "BINANCE", Cell.str "", Cell.str "", Cell.str ""]]
  else rows

/-- The `ex == "mexc"` branch of `build_rows_for_exchange`. -/
def build_rows_mexc (tiers : List MxTier) : List Row :=
  let ts := tiers.insertionSort (fun a b => sortKey a.mlev ≤ sortKey b.mlev)
  let rows := ts.enum.map (fun p =>
    [Cell.str (if p.1 = 0 then "MECX" else ""),
     Cell.str (to_leverage_str p.2.mlev),
     optCell (parse_number p.2.notional_usdt),
     Cell.str (to_percent_str p.2.mmr)])
  if rows.isEmpty then [[Cell.str "MECX", Cell.str "", Cell.str "", Cell.str ""]]
  else rows

/-- The `ex == "bybit"` branch of `build_rows_for_exchange`. -/
def build_rows_bybit (tiers : List BbTier) : List Row :=
  let ts := tiers.insertionSort (fun a b => sortKey a.maximumLever ≤ sortKey b.maximumLever)
  let rows := ts.enum.map (fun p =>
    [Cell.str (if p.1 = 0 then "BYBIT" else ""),
     Cell.str (to_leverage_str p.2.maximumLever),
     optCell (parse_number p.2.storingLocationValue),
     Cell.str (to_percent_str p.2.maintenanceMarginRate)])
  if rows.isEmpty then [[Cell.str "BYBIT", Cell.str "", Cell.str "", Cell.str ""]]
  else rows

/-- The `ex == "weex"` branch of `build_rows_for_exchange`: the notional is
the upper end of the `range` string, the mmr cell is passed through raw
(`t.get("mmr") or ""`). -/
def build_rows_weex (tiers : List WxTier) : List Row :=
  let ts := tiers.insertionSort (fun a b => sortKey a.mlev ≤ sortKey b.mlev)
  let rows := ts.enum.map (fun p =>
    [Cell.str (if p.1 = 0 then "WEEX" else ""),
     Cell.str (to_leverage_str p.2.mlev),
     (match p.2.range with
      | Cell.str s => optCell (weex_range_upper s)
      | _ => Cell.null),
     pyOrCell p.2.mmr (Cell.str "")])
  if rows.isEmpty then [[Cell.str "WEEX", Cell.str "", Cell.str "", Cell.str ""]]
  else rows

/-- The `ex == "surf"` branch of `build_rows_for_exchange` (no sort). -/
def build_rows_surf (tiers : List MxTier) : List Row :=
  let rows := tiers.enum.map (fun p =>
    [Cell.str (if p.1 = 0 then "SURF" else ""),
     Cell.str (to_leverage_str p.2.mlev),
     optCell (parse_number p.2.notional_usdt),
     Cell.str (to_percent_str p.2.mmr)])
  if rows.isEmpty then [[Cell.str "SURF", Cell.str "", Cell.str "", Cell.str ""]]
  else rows

end TableMake

/-! ## General list lemmas used by the selection proofs -/

theorem mem_of_getLastQ {α : Type} {l : List α} {a : α} (h : l.getLast? = some a) :
    a ∈ l := by
  induction l with
  | nil => simp at h
  | cons x t ih =>
    cases t with
    | nil => simp at h; simp [h]
    | cons y t2 =>
      rw [List.getLast?_cons_cons] at h
      exact List.mem_cons_of_mem x (ih h)

theorem mem_and_pred_of_mem_takeWhile {α : Type} {p : α → Bool} {l : List α} {a : α}
    (h : a ∈ l.takeWhile p) : a ∈ l ∧ p a := by
  induction l with
  | nil => simp [List.takeWhile] at h
  | cons x t ih =>
    rw [List.takeWhile_cons] at h
    by_cases hp : p x
    · rw [if_pos hp] at h
      rcases List.mem_cons.mp h with h1 | h2
      · exact ⟨by simp [h1], h1 ▸ hp⟩
      · exact ⟨List.mem_cons_of_mem x (ih h2).1, (ih h2).2⟩
    · simp [hp] at h

/-- On a `Pairwise r` list, if the predicate is downward closed along `r`,
`takeWhile` and `filter` agree. -/
theorem takeWhile_eq_filter_of_pairwise {α : Type} {r : α → α → Prop} {p : α → Bool}
    {l : List α} (hl : l.Pairwise r) (hdc : ∀ a b, r a b → p b → p a) :
    l.takeWhile p = l.filter p := by
  induction l with
  | nil => rfl
  | cons x t ih =>
    rcases List.pairwise_cons.mp hl with ⟨hx, ht⟩
    by_cases hp : p x
    · rw [List.takeWhile_cons, List.filter_cons, if_pos hp, if_pos hp, ih ht]
    · have hnil : t.filter p = [] :=
        List.filter_eq_nil_iff.mpr fun b hb hpb => hp (hdc x b (hx b hb) hpb)
      rw [List.takeWhile_cons, List.filter_cons, if_neg hp, if_neg hp, hnil]

/-- Every element of a `Pairwise r` list is related to its last element
(or is that last element). -/
theorem pairwise_rel_getLast {α : Type} {r : α → α → Prop} {l : List α} {x : α}
    (hl : l.Pairwise r) (hx : l.getLast? = some x) :
    ∀ y ∈ l, y = x ∨ r y x := by
  induction l with
  | nil => simp
  | cons a t ih =>
    rcases List.pairwise_cons.mp hl with ⟨ha, ht⟩
    cases t with
    | nil =>
      simp at hx
      intro y hy
      rcases List.mem_singleton.mp hy with rfl
      exact Or.inl hx
    | cons b t2 =>
      rw [List.getLast?_cons_cons] at hx
      intro y hy
      rcases List.mem_cons.mp hy with rfl | h2
      · exact Or.inr (ha x (mem_of_getLastQ hx))
      · exact ih ht hx y h2

namespace MakeRules

/-- The sort is a permutation of its input. -/
theorem sortPosDesc_perm (l : List TierT) : (sortPosDesc l).Perm l :=
  List.perm_insertionSort tierGE l

theorem mem_sortPosDesc {l : List TierT} {t : TierT} :
    t ∈ sortPosDesc l ↔ t ∈ l :=
  (sortPosDesc_perm l).mem_iff

/-- The sort output is descending by cap. -/
theorem sortPosDesc_sorted (l : List TierT) : (sortPosDesc l).Pairwise tierGE :=
  List.sorted_insertionSort tierGE l

/-- The `pos >= S` prefix of the sorted list is its `pos >= S` sublist. -/
theorem takeWhile_sortPosDesc_eq_filter (l : List TierT) (S : ℚ) :
    (sortPosDesc l).takeWhile (fun t => S ≤ t.pos) =
      (sortPosDesc l).filter (fun t => S ≤ t.pos) :=
  takeWhile_eq_filter_of_pairwise (sortPosDesc_sorted l)
    (fun a b hab hb => by
      simp only [decide_eq_true_eq] at hb ⊢
      exact le_trans hb hab)

/-- `_select_tier_for_threshold` returns `None` exactly when every parsed
tier's cap is below `S`. -/
theorem select_eq_none_iff (rows : List Row) (S : ℚ) :
    select_tier_for_threshold rows S = none ↔
      ∀ t ∈ parsedRows rows, t.pos < S := by
  unfold select_tier_for_threshold
  by_cases hE : (parsedRows rows).isEmpty
  · rw [if_pos hE]
    rcases List.isEmpty_iff.mp hE with h
    simp [h]
  · rw [if_neg hE]
    rw [takeWhile_sortPosDesc_eq_filter]
    constructor
    · intro h t ht
      rcases Option.map_eq_none'.mp h with hnone
      have hfil : (sortPosDesc (parsedRows rows)).filter (fun t => S ≤ t.pos) = [] :=
        List.getLast?_eq_none_iff.mp hnone
      have := List.filter_eq_nil_iff.mp hfil t (mem_sortPosDesc.mpr ht)
      simpa using this
    · intro h
      apply Option.map_eq_none'.mpr
      apply List.getLast?_eq_none_iff.mpr
      apply List.filter_eq_nil_iff.mpr
      intro t ht
      simpa using h t (mem_sortPosDesc.mp ht)

/-- When `_select_tier_for_threshold` picks `(l, m)`, the pick is a parsed
tier whose cap covers `S` and is minimal among covering caps. -/
theorem select_eq_some_spec {rows : List Row} {S : ℚ} {l m : ℚ}
    (h : select_tier_for_threshold rows S = some (l, m)) :
    ∃ t ∈ parsedRows rows, t.lev = l ∧ t.mmr = m ∧ S ≤ t.pos ∧
      ∀ u ∈ parsedRows rows, S ≤ u.pos → t.pos ≤ u.pos := by
  unfold select_tier_for_threshold at h
  by_cases hE : (parsedRows rows).isEmpty
  · rw [if_pos hE] at h; exact absurd h (by simp)
  · rw [if_neg hE, takeWhile_sortPosDesc_eq_filter] at h
    rcases Option.map_eq_some'.mp h with ⟨t, hlast, hval⟩
    have htmem :=
      List.mem_filter.mp (mem_of_getLastQ hlast)
    have hpos : S ≤ t.pos := by simpa using htmem.2
    refine ⟨t, mem_sortPosDesc.mp htmem.1, ?_, ?_, hpos, ?_⟩
    · exact congrArg Prod.fst hval
    · exact congrArg Prod.snd hval
    · intro u hu hSu
      have humem : u ∈ (sortPosDesc (parsedRows rows)).filter (fun t => S ≤ t.pos) :=
        List.mem_filter.mpr ⟨mem_sortPosDesc.mpr hu, by simpa using hSu⟩
      have hpair :=
        (sortPosDesc_sorted (parsedRows rows)).filter (fun t => decide (S ≤ t.pos))
      rcases pairwise_rel_getLast hpair hlast u humem with rfl | hrel
      · exact le_refl _
      · exact hrel

end MakeRules

/-! ## Concrete inputs used by the claim theorems -/

/-- The three-tier schedule of the spec scenario:
`[(5x, cap 1_000_000, mmr 0.004), (10x, cap 200_000, mmr 0.005),
(25x, cap 50_000, mmr 0.01)]`. -/
def c1Schedule : List Row :=
  [[Cell.str "E", Cell.num 5, Cell.num 1000000, Cell.num (1 / 250)],
   [Cell.str "E", Cell.num 10, Cell.num 200000, Cell.num (1 / 200)],
   [Cell.str "E", Cell.num 25, Cell.num 50000, Cell.num (1 / 100)]]

/-- Two tiers with equal caps and different leverages: satisfies the
non-increasing-cap invariant, breaks the max-leverage clamp clause. -/
def c1TieRows : List Row :=
  [[Cell.str "E", Cell.num 20, Cell.num 100, Cell.num (1 / 100)],
   [Cell.str "E", Cell.num 10, Cell.num 100, Cell.num (1 / 50)]]

/-- A two-tier schedule used to separate the two selector implementations. -/
def c3Rows : List Row :=
  [[Cell.str "E", Cell.num 5, Cell.num 1000000, Cell.num (1 / 250)],
   [Cell.str "E", Cell.num 10, Cell.num 200000, Cell.num (1 / 200)]]

/-! ## Claim C1 -/

/-- **C1** (amended).  For every row list whose rows all parse, and whose
parsed tiers have caps *strictly* decreasing as leverage increases,
`_select_tier_for_threshold(rows, S)` of `make_suggest_rules.py` returns
`None` iff every cap is `< S`; a returned pick is a parsed tier with the
smallest cap `>= S`; and when every cap is `>= S` the returned leverage is
the maximum leverage.  (With the merely non-increasing invariant of the
original claim, equal-cap tiers falsify the max-leverage clause; see the
counterexample.) -/
theorem c1_select_min_cap_of_strict_inv (rows : List Row) (S : ℚ)
    (hv : ∀ r ∈ rows, (MakeRules.parseRow r).isSome)
    (hinv : ∀ t ∈ MakeRules.parsedRows rows, ∀ u ∈ MakeRules.parsedRows rows,
      t.lev < u.lev → u.pos < t.pos) :
    (MakeRules.select_tier_for_threshold rows S = none ↔
      ∀ t ∈ MakeRules.parsedRows rows, t.pos < S) ∧
    (∀ l m, MakeRules.select_tier_for_threshold rows S = some (l, m) →
      ∃ t ∈ MakeRules.parsedRows rows, t.lev = l ∧ t.mmr = m ∧ S ≤ t.pos ∧
        (∀ u ∈ MakeRules.parsedRows rows, S ≤ u.pos → t.pos ≤ u.pos) ∧
        ((∀ u ∈ MakeRules.parsedRows rows, S ≤ u.pos) →
          ∀ u ∈ MakeRules.parsedRows rows, u.lev ≤ l)) := by
  refine ⟨MakeRules.select_eq_none_iff rows S, fun l m h => ?_⟩
  rcases MakeRules.select_eq_some_spec h with ⟨t, htm, hlev, hmmr, hpos, hmin⟩
  refine ⟨t, htm, hlev, hmmr, hpos, hmin, fun hall u hu => ?_⟩
  by_contra hgt
  push_neg at hgt
  rw [← hlev] at hgt
  have hup : u.pos < t.pos := hinv t htm u hu hgt
  exact absurd (hmin u hu (hall u hu)) (not_le.mpr hup)

/-- **C1** counterexample: with equal caps `100` at leverages `20` and `10`,
the non-increasing invariant and "all caps >= S" hold at `S = 50`, yet the
code returns the leverage-10 tier, not the max-leverage (20x) tier. -/
theorem c1_tie_counterexample :
    (∀ t ∈ MakeRules.parsedRows c1TieRows, ∀ u ∈ MakeRules.parsedRows c1TieRows,
      t.lev < u.lev → u.pos ≤ t.pos) ∧
    (∀ t ∈ MakeRules.parsedRows c1TieRows, (50 : ℚ) ≤ t.pos) ∧
    (∃ u ∈ MakeRules.parsedRows c1TieRows, u.lev = 20) ∧
    MakeRules.select_tier_for_threshold c1TieRows 50 = some (10, 1 / 50) ∧
    ¬((10 : ℚ) = 20) := by
  refine ⟨?_, ?_, ?_, ?_, ?_⟩ <;> with_unfolding_all decide

/-- **C1** witness: the three scenario evaluations, and the amended theorem
instantiated at the scenario schedule and `S = 150000`. -/
theorem c1_witness :
    MakeRules.select_tier_for_threshold c1Schedule 150000 = some (10, 1 / 200) ∧
    MakeRules.select_tier_for_threshold c1Schedule 2000000 = none ∧
    MakeRules.select_tier_for_threshold c1Schedule 10000 = some (25, 1 / 100) ∧
    (MakeRules.select_tier_for_threshold c1Schedule 150000 = none ↔
      ∀ t ∈ MakeRules.parsedRows c1Schedule, t.pos < 150000) :=
  ⟨by with_unfolding_all decide, by with_unfolding_all decide, by with_unfolding_all decide,
    (c1_select_min_cap_of_strict_inv c1Schedule 150000 (by with_unfolding_all decide)
      (by with_unfolding_all decide)).1⟩

/-! ## Claim C3 -/

/-- **C3**.  The two `_select_tier_for_threshold` implementations disagree:
on `c3Rows` (caps `1_000_000 > 200_000`), at `S = 100` (below every cap)
`make_suggest_rules.py` picks the min-cap tier while `streamlit_app.py`
returns `None`; at `S = 2_000_000` (above every cap) `make_suggest_rules.py`
returns `None` while `streamlit_app.py` clamps to the max-cap tier. -/
theorem c3_selectors_disagree :
    MakeRules.select_tier_for_threshold c3Rows 100 = some (10, 1 / 200) ∧
    StApp.select_tier_for_threshold c3Rows 100 = none ∧
    MakeRules.select_tier_for_threshold c3Rows 2000000 = none ∧
    StApp.select_tier_for_threshold c3Rows 2000000 = some (5, 1 / 250) ∧
    MakeRules.select_tier_for_threshold c3Rows 100 ≠
      StApp.select_tier_for_threshold c3Rows 100 ∧
    MakeRules.select_tier_for_threshold c3Rows 2000000 ≠
      StApp.select_tier_for_threshold c3Rows 2000000 := by
  refine ⟨?_, ?_, ?_, ?_, ?_, ?_⟩ <;> with_unfolding_all decide

namespace StApp

/-- A result of the adjacent-pair scan is a member of the scanned list whose
cap covers `S`. -/
theorem scanPairs_some_mem {S : ℚ} :
    ∀ {l : List TierT} {p : ℚ × ℚ}, scanPairs S l = some p →
      ∃ t ∈ l, t.lev = p.1 ∧ t.mmr = p.2 ∧ S ≤ t.pos := by
  intro l
  induction l with
  | nil => intro p h; simp [scanPairs] at h
  | cons a t ih =>
    intro p h
    cases t with
    | nil => simp [scanPairs] at h
    | cons b t2 =>
      rw [scanPairs] at h
      by_cases hc : S ≤ a.pos ∧ b.pos < S
      · rw [if_pos hc] at h
        rcases h
        exact ⟨a, by simp, rfl, rfl, hc.1⟩
      · rw [if_neg hc] at h
        rcases ih h with ⟨t, htm, h1, h2, h3⟩
        exact ⟨t, List.mem_cons_of_mem a htm, h1, h2, h3⟩

/-- Any pick of the streamlit selector originates from a fully parsed row. -/
theorem stSelect_some_origin {rows : List Row} {S l m : ℚ}
    (h : select_tier_for_threshold rows S = some (l, m)) :
    ∃ t ∈ parsedRows rows, t.lev = l ∧ t.mmr = m := by
  unfold select_tier_for_threshold at h
  by_cases hE : (parsedRows rows).isEmpty
  · rw [if_pos hE] at h; exact absurd h (by simp)
  · rw [if_neg hE] at h
    rcases hs : MakeRules.sortPosDesc (parsedRows rows) with _ | ⟨p, rest⟩
    · rw [hs] at h; exact absurd h (by simp)
    · rw [hs] at h
      have h2 : (if p.pos ≤ S then some (p.lev, p.mmr) else scanPairs S (p :: rest)) =
          some (l, m) := h
      by_cases hp : p.pos ≤ S
      · rw [if_pos hp] at h2
        rcases h2
        exact ⟨p, MakeRules.mem_sortPosDesc.mp (hs ▸ List.mem_cons_self p rest), rfl, rfl⟩
      · rw [if_neg hp] at h2
        rcases scanPairs_some_mem h2 with ⟨t, htm, hl1, hm2, _⟩
        exact ⟨t, MakeRules.mem_sortPosDesc.mp (hs ▸ htm), hl1, hm2⟩

end StApp

namespace MakeRules

/-- Any pick of the make-rules selector originates from a fully parsed row
whose cap covers `S`. -/
theorem mkSelect_some_origin {rows : List Row} {S l m : ℚ}
    (h : select_tier_for_threshold rows S = some (l, m)) :
    ∃ t ∈ parsedRows rows, t.lev = l ∧ t.mmr = m ∧ S ≤ t.pos := by
  rcases select_eq_some_spec h with ⟨t, htm, h1, h2, h3, _⟩
  exact ⟨t, htm, h1, h2, h3⟩


/-- Invariant of the `max_lev_val` / `max_lev_src` pair of
`_street_for_symbol` with respect to the picks seen so far: absent only when
no pick was seen, otherwise the maximum pick leverage with an achieving
venue. -/
def GoodMax (st : Street4) (ps : List (String × ℚ × ℚ)) : Prop :=
  (st.maxLev = none → st.maxSrc = none ∧ ps = []) ∧
  (∀ v, st.maxLev = some v →
    (∃ ex m, st.maxSrc = some ex ∧ (ex, v, m) ∈ ps) ∧ ∀ q ∈ ps, q.2.1 ≤ v)

/-- Invariant of the `min_mmr_val` / `min_mmr_src` pair. -/
def GoodMin (st : Street4) (ps : List (String × ℚ × ℚ)) : Prop :=
  (st.minMmr = none → st.minSrc = none ∧ ps = []) ∧
  (∀ v, st.minMmr = some v →
    (∃ ex l, st.minSrc = some ex ∧ (ex, l, v) ∈ ps) ∧ ∀ q ∈ ps, v ≤ q.2.2)

theorem updMax_minMmr (st : Street4) (ex : String) (lev : ℚ) :
    (updMax st ex lev).minMmr = st.minMmr := by
  unfold updMax
  rcases st.maxLev with _ | v
  · rfl
  · by_cases hv : v < lev <;> simp [hv]

theorem updMax_minSrc (st : Street4) (ex : String) (lev : ℚ) :
    (updMax st ex lev).minSrc = st.minSrc := by
  unfold updMax
  rcases st.maxLev with _ | v
  · rfl
  · by_cases hv : v < lev <;> simp [hv]

theorem updMin_maxLev (st : Street4) (ex : String) (mmr : ℚ) :
    (updMin st ex mmr).maxLev = st.maxLev := by
  unfold updMin
  rcases st.minMmr with _ | v
  · rfl
  · by_cases hv : mmr < v <;> simp [hv]

theorem updMin_maxSrc (st : Street4) (ex : String) (mmr : ℚ) :
    (updMin st ex mmr).maxSrc = st.maxSrc := by
  unfold updMin
  rcases st.minMmr with _ | v
  · rfl
  · by_cases hv : mmr < v <;> simp [hv]

/-- `GoodMax` only depends on the max-side fields. -/
theorem goodMax_congr {st st' : Street4} {ps : List (String × ℚ × ℚ)}
    (hL : st'.maxLev = st.maxLev) (hS : st'.maxSrc = st.maxSrc)
    (h : GoodMax st ps) : GoodMax st' ps := by
  unfold GoodMax at h ⊢
  rw [hL, hS]
  exact h

/-- `GoodMin` only depends on the min-side fields. -/
theorem goodMin_congr {st st' : Street4} {ps : List (String × ℚ × ℚ)}
    (hL : st'.minMmr = st.minMmr) (hS : st'.minSrc = st.minSrc)
    (h : GoodMin st ps) : GoodMin st' ps := by
  unfold GoodMin at h ⊢
  rw [hL, hS]
  exact h

/-- The max update keeps the invariant while appending the new pick. -/
theorem goodMax_updMax {st : Street4} {ps : List (String × ℚ × ℚ)}
    (ex : String) (lev mmr : ℚ) (h : GoodMax st ps) :
    GoodMax (updMax st ex lev) (ps ++ [(ex, lev, mmr)]) := by
  rcases hm : st.maxLev with _ | v
  · have hupd : updMax st ex lev = { st with maxLev := some lev, maxSrc := some ex } := by
      unfold updMax; rw [hm]
    rcases h.1 hm with ⟨hsrc, rfl⟩
    refine ⟨fun hnone => ?_, fun w hw => ?_⟩
    · rw [hupd] at hnone; exact absurd hnone (by simp)
    · rw [hupd] at hw
      simp only at hw
      rcases hw
      exact ⟨⟨ex, mmr, by rw [hupd], by simp⟩, by simp⟩
  · rcases (h.2 v hm) with ⟨⟨ex', m', hsrc, hmem⟩, hbd⟩
    by_cases hv : v < lev
    · have hupd : updMax st ex lev = { st with maxLev := some lev, maxSrc := some ex } := by
        unfold updMax; rw [hm]; exact if_pos hv
      refine ⟨fun hnone => ?_, fun w hw => ?_⟩
      · rw [hupd] at hnone; exact absurd hnone (by simp)
      · rw [hupd] at hw
        simp only at hw
        rcases hw
        refine ⟨⟨ex, mmr, by rw [hupd], by simp⟩, fun q hq => ?_⟩
        rcases List.mem_append.mp hq with hq1 | hq2
        · exact le_of_lt (lt_of_le_of_lt (hbd q hq1) hv)
        · simp at hq2; subst hq2; simp
    · have hupd : updMax st ex lev = st := by
        unfold updMax; rw [hm]; exact if_neg hv
      rw [hupd]
      refine ⟨fun hnone => absurd hnone (by simp [hm]), fun w hw => ?_⟩
      rw [hm] at hw
      rcases hw
      refine ⟨⟨ex', m', hsrc, List.mem_append_left _ hmem⟩, fun q hq => ?_⟩
      rcases List.mem_append.mp hq with hq1 | hq2
      · exact hbd q hq1
      · simp at hq2; subst hq2; simpa using le_of_not_lt hv

/-- The min update keeps the invariant while appending the new pick. -/
theorem goodMin_updMin {st : Street4} {ps : List (String × ℚ × ℚ)}
    (ex : String) (lev mmr : ℚ) (h : GoodMin st ps) :
    GoodMin (updMin st ex mmr) (ps ++ [(ex, lev, mmr)]) := by
  rcases hm : st.minMmr with _ | v
  · have hupd : updMin st ex mmr = { st with minMmr := some mmr, minSrc := some ex } := by
      unfold updMin; rw [hm]
    rcases h.1 hm with ⟨hsrc, rfl⟩
    refine ⟨fun hnone => ?_, fun w hw => ?_⟩
    · rw [hupd] at hnone; exact absurd hnone (by simp)
    · rw [hupd] at hw
      simp only at hw
      rcases hw
      exact ⟨⟨ex, lev, by rw [hupd], by simp⟩, by simp⟩
  · rcases (h.2 v hm) with ⟨⟨ex', l', hsrc, hmem⟩, hbd⟩
    by_cases hv : mmr < v
    · have hupd : updMin st ex mmr = { st with minMmr := some mmr, minSrc := some ex } := by
        unfold updMin; rw [hm]; exact if_pos hv
      refine ⟨fun hnone => ?_, fun w hw => ?_⟩
      · rw [hupd] at hnone; exact absurd hnone (by simp)
      · rw [hupd] at hw
        simp only at hw
        rcases hw
        refine ⟨⟨ex, lev, by rw [hupd], by simp⟩, fun q hq => ?_⟩
        rcases List.mem_append.mp hq with hq1 | hq2
        · exact le_of_lt (lt_of_lt_of_le hv (hbd q hq1))
        · simp at hq2; subst hq2; simp
    · have hupd : updMin st ex mmr = st := by
        unfold updMin; rw [hm]; exact if_neg hv
      rw [hupd]
      refine ⟨fun hnone => absurd hnone (by simp [hm]), fun w hw => ?_⟩
      rw [hm] at hw
      rcases hw
      refine ⟨⟨ex', l', hsrc, List.mem_append_left _ hmem⟩, fun q hq => ?_⟩
      rcases List.mem_append.mp hq with hq1 | hq2
      · exact hbd q hq1
      · simp at hq2; subst hq2; simpa using le_of_not_lt hv

/-- One venue step preserves both invariants, appending the venue's pick. -/
theorem streetStep_good {payload : Payload} {sym : String} {S : ℚ}
    {st : Street4} {ps : List (String × ℚ × ℚ)} (ex : String)
    (h1 : GoodMax st ps) (h2 : GoodMin st ps) :
    GoodMax (streetStep payload sym S st ex)
      (ps ++ ((select_tier_for_threshold (rowsOf payload sym ex) S).map
        (fun p => (ex, p))).toList) ∧
    GoodMin (streetStep payload sym S st ex)
      (ps ++ ((select_tier_for_threshold (rowsOf payload sym ex) S).map
        (fun p => (ex, p))).toList) := by
  unfold streetStep
  rcases hsel : select_tier_for_threshold (rowsOf payload sym ex) S with _ | ⟨lev, mmr⟩
  · simpa using ⟨h1, h2⟩
  · simp only [Option.map_some', Option.toList_some]
    constructor
    · exact goodMax_congr (updMin_maxLev _ ex mmr) (updMin_maxSrc _ ex mmr)
        (goodMax_updMax ex lev mmr h1)
    · exact goodMin_updMin ex lev mmr
        (goodMin_congr (updMax_minMmr st ex lev) (updMax_minSrc st ex lev) h2)

/-- The venue fold maintains both invariants over the accumulated picks. -/
theorem streetFold_good (payload : Payload) (sym : String) (S : ℚ) :
    ∀ (exs : List String) (st : Street4) (ps : List (String × ℚ × ℚ)),
      GoodMax st ps → GoodMin st ps →
      GoodMax (exs.foldl (streetStep payload sym S) st)
        (ps ++ exs.filterMap (fun ex =>
          (select_tier_for_threshold (rowsOf payload sym ex) S).map (fun p => (ex, p)))) ∧
      GoodMin (exs.foldl (streetStep payload sym S) st)
        (ps ++ exs.filterMap (fun ex =>
          (select_tier_for_threshold (rowsOf payload sym ex) S).map (fun p => (ex, p)))) := by
  intro exs
  induction exs with
  | nil => intro st ps h1 h2; simpa using ⟨h1, h2⟩
  | cons ex rest ih =>
    intro st ps h1 h2
    have hstep := @streetStep_good payload sym S st ps ex h1 h2
    have hrec := ih (streetStep payload sym S st ex)
      (ps ++ ((select_tier_for_threshold (rowsOf payload sym ex) S).map
        (fun p => (ex, p))).toList) hstep.1 hstep.2
    rcases hsel : select_tier_for_threshold (rowsOf payload sym ex) S with _ | p
    · rw [hsel] at hrec
      simpa [List.filterMap_cons, hsel] using hrec
    · rw [hsel] at hrec
      simpa [List.filterMap_cons, hsel] using hrec

/-- The invariants hold at the result of `_street_for_symbol`. -/
theorem street_good (payload : Payload) (sym : String) (S : ℚ) :
    GoodMax (street_for_symbol payload sym S) (picks payload sym S) ∧
    GoodMin (street_for_symbol payload sym S) (picks payload sym S) := by
  have h0max : GoodMax ⟨none, none, none, none⟩ [] :=
    ⟨fun _ => ⟨rfl, rfl⟩, fun v hv => by simp at hv⟩
  have h0min : GoodMin ⟨none, none, none, none⟩ [] :=
    ⟨fun _ => ⟨rfl, rfl⟩, fun v hv => by simp at hv⟩
  have h := streetFold_good payload sym S EXS_SHOW ⟨none, none, none, none⟩ [] h0max h0min
  simpa [street_for_symbol, picks] using h

end MakeRules

/-! ## Claim C7 -/

/-- Payload on which the best-leverage venue (BINANCE, 10x) and the best-mmr
venue (WEEX, 1%) differ at threshold 50000. -/
def c7Payload : Payload :=
  [("AUSDT",
    [("BINANCE", [[Cell.str "BINANCE", Cell.num 10, Cell.num 100000, Cell.num (1 / 50)]]),
     ("WEEX", [[Cell.str "WEEX", Cell.num 5, Cell.num 100000, Cell.num (1 / 100)]])])]

/-- **C7**.  `_street_for_symbol` of `make_suggest_rules.py` reduces the
non-absent per-venue picks independently: the reported max leverage is the
maximum over the picks and its source venue achieves it; the reported min
mmr is the minimum over the picks and its source venue achieves it; both are
absent exactly when there is no pick.  On `c7Payload` the two source venues
differ (BINANCE for leverage, WEEX for mmr) and both are represented. -/
theorem c7_street_independent_extremes :
    (∀ payload sym S v, (MakeRules.street_for_symbol payload sym S).maxLev = some v →
      (∃ ex m, (MakeRules.street_for_symbol payload sym S).maxSrc = some ex ∧
        (ex, v, m) ∈ MakeRules.picks payload sym S) ∧
      ∀ q ∈ MakeRules.picks payload sym S, q.2.1 ≤ v) ∧
    (∀ payload sym S v, (MakeRules.street_for_symbol payload sym S).minMmr = some v →
      (∃ ex l, (MakeRules.street_for_symbol payload sym S).minSrc = some ex ∧
        (ex, l, v) ∈ MakeRules.picks payload sym S) ∧
      ∀ q ∈ MakeRules.picks payload sym S, v ≤ q.2.2) ∧
    (∀ payload sym S, (MakeRules.street_for_symbol payload sym S).maxLev = none →
      MakeRules.picks payload sym S = []) ∧
    MakeRules.street_for_symbol c7Payload "AUSDT" 50000 =
      ⟨some 10, some "BINANCE", some (1 / 100), some "WEEX"⟩ ∧
    ("BINANCE" : String) ≠ "WEEX" := by
  refine ⟨?_, ?_, ?_, ?_, ?_⟩
  · intro payload sym S v hv
    exact (MakeRules.street_good payload sym S).1.2 v hv
  · intro payload sym S v hv
    exact (MakeRules.street_good payload sym S).2.2 v hv
  · intro payload sym S hnone
    exact ((MakeRules.street_good payload sym S).1.1 hnone).2
  · with_unfolding_all decide
  · with_unfolding_all decide

/-- **C7** witness: the universal characterization applied to `c7Payload` at
`S = 50000`, with its hypothesis discharged by evaluation. -/
theorem c7_witness :
    (∃ ex m, (MakeRules.street_for_symbol c7Payload "AUSDT" 50000).maxSrc = some ex ∧
      (ex, 10, m) ∈ MakeRules.picks c7Payload "AUSDT" 50000) ∧
    ∀ q ∈ MakeRules.picks c7Payload "AUSDT" 50000, q.2.1 ≤ 10 :=
  c7_street_independent_extremes.1 c7Payload "AUSDT" 50000 10
    (by with_unfolding_all decide)

/-! ## Claim C10 -/

/-- Rows whose first tier has the largest cap and leverage but an
unparseable mmr (`"abc"`), and a second fully valid tier. -/
def c10Rows : List Row :=
  [[Cell.str "E", Cell.num 100, Cell.num 9000000000, Cell.str "abc"],
   [Cell.str "E", Cell.num 10, Cell.num 100000, Cell.num (1 / 100)]]

/-- **C10**.  A tier row whose mmr (or any field) fails to parse is excluded
from selection in both implementations: every returned pick originates from
a row on which all three fields parse, and the cross-venue best leverage of
`_street_for_symbol` always originates from such a fully parsed row. -/
theorem c10_unparseable_mmr_never_selected :
    (∀ rows S l m, MakeRules.select_tier_for_threshold rows S = some (l, m) →
      ∃ r ∈ rows, ∃ t : TierT, MakeRules.parseRow r = some t ∧
        t.lev = l ∧ t.mmr = m ∧ S ≤ t.pos) ∧
    (∀ rows S l m, StApp.select_tier_for_threshold rows S = some (l, m) →
      ∃ r ∈ rows, ∃ t : TierT, StApp.parseRow r = some t ∧ t.lev = l ∧ t.mmr = m) ∧
    (∀ payload sym S v, (MakeRules.street_for_symbol payload sym S).maxLev = some v →
      ∃ ex ∈ MakeRules.EXS_SHOW, ∃ r ∈ rowsOf payload sym ex, ∃ t : TierT,
        MakeRules.parseRow r = some t ∧ t.lev = v) := by
  refine ⟨?_, ?_, ?_⟩
  · intro rows S l m h
    rcases MakeRules.mkSelect_some_origin h with ⟨t, htm, h1, h2, h3⟩
    rcases List.mem_filterMap.mp htm with ⟨r, hr, hpr⟩
    exact ⟨r, hr, t, hpr, h1, h2, h3⟩
  · intro rows S l m h
    rcases StApp.stSelect_some_origin h with ⟨t, htm, h1, h2⟩
    rcases List.mem_filterMap.mp htm with ⟨r, hr, hpr⟩
    exact ⟨r, hr, t, hpr, h1, h2⟩
  · intro payload sym S v hv
    rcases ((MakeRules.street_good payload sym S).1.2 v hv).1 with ⟨ex, m, _, hmem⟩
    rcases List.mem_filterMap.mp hmem with ⟨ex0, hex0, hpick⟩
    rcases Option.map_eq_some'.mp hpick with ⟨p, hsel, hpe⟩
    have hexeq : ex0 = ex := congrArg Prod.fst hpe
    have hpeq : p = (v, m) := by
      have := congrArg Prod.snd hpe
      simpa using this
    subst hexeq
    rcases hpeq
    rcases MakeRules.mkSelect_some_origin hsel with ⟨t, htm, h1, h2, _⟩
    rcases List.mem_filterMap.mp htm with ⟨r, hr, hpr⟩
    exact ⟨ex0, hex0, r, hr, t, hpr, h1⟩

/-- **C10** witness: on `c10Rows` at `S = 100000` both selectors return the
valid `(10, 0.01)` tier; the theorem produces the fully parsed originating
row, even though the dropped row has a larger cap and leverage. -/
theorem c10_witness :
    (∃ r ∈ c10Rows, ∃ t : TierT, MakeRules.parseRow r = some t ∧
      t.lev = 10 ∧ t.mmr = 1 / 100 ∧ (100000 : ℚ) ≤ t.pos) ∧
    (∃ r ∈ c10Rows, ∃ t : TierT, StApp.parseRow r = some t ∧
      t.lev = 10 ∧ t.mmr = 1 / 100) :=
  ⟨c10_unparseable_mmr_never_selected.1 c10Rows 100000 10 (1 / 100)
      (by with_unfolding_all decide),
   c10_unparseable_mmr_never_selected.2.1 c10Rows 100000 10 (1 / 100)
      (by with_unfolding_all decide)⟩

/-! ## Evaluation lemmas for the suggestion body -/

theorem enumMap_getElem {α β : Type} (l : List α) (f : ℕ × α → β) (i : ℕ) :
    (l.enum.map f)[i]? = (l[i]?).map (fun a => f (i, a)) := by
  rw [List.getElem?_map, List.getElem?_enum]
  cases l[i]? <;> rfl

namespace StApp

/-- The `i`-th suggested record, in terms of the `i`-th threshold and its
street data. -/
theorem build_suggest_getElem (majors : List String) (sym : String)
    (payload : Payload) (i : ℕ) {S : ℚ} (hS : (tiersFor majors sym)[i]? = some S) :
    (build_suggest_rule_table majors sym payload)[i]? =
      some (suggestRec (i = (tiersFor majors sym).length - 1) S
        (street_for_symbol payload sym S)) := by
  unfold build_suggest_rule_table
  rw [enumMap_getElem, hS]
  rfl

theorem build_suggest_length (majors : List String) (sym : String)
    (payload : Payload) :
    (build_suggest_rule_table majors sym payload).length =
      (tiersFor majors sym).length := by
  unfold build_suggest_rule_table
  rw [List.length_map, List.enum_length]

/-- Topmost-threshold body on an uncovered threshold. -/
theorem suggestRec_top_none (S : ℚ) :
    suggestRec true S (none, none) = ⟨S, 10, 1 / 10, 1 / 25, none, none⟩ := by
  have h1 : round_leverage ((10 : ℚ) * (11 / 10)) = 10 := by with_unfolding_all decide
  have h2 : min (max MMR_FLOOR (ALPHA_TOP * ((1 : ℚ) / 10))) (1 * (9 / 10)) = 1 / 25 := by
    with_unfolding_all decide
  have h3 : (1 : ℚ) / 10 = 1 / 10 := rfl
  show (⟨S, round_leverage (10 * (11 / 10)), 1 / round_leverage (10 * (11 / 10)),
    min (max MMR_FLOOR (ALPHA_TOP * (1 / round_leverage (10 * (11 / 10)))))
      (1 * (9 / 10)), none, none⟩ : SRec) = _
  rw [h1, h2]

/-- Non-topmost body on an uncovered threshold. -/
theorem suggestRec_mid_none (S : ℚ) :
    suggestRec false S (none, none) = ⟨S, 10, 1 / 10, 1 / 20, none, none⟩ := by
  have h1 : round_leverage ((10 : ℚ) * (9 / 10)) = 10 := by with_unfolding_all decide
  have h2 : max MMR_FLOOR (ALPHA_MID * ((1 : ℚ) / 10)) = 1 / 20 := by
    with_unfolding_all decide
  show (⟨S, round_leverage (10 * (9 / 10)), 1 / round_leverage (10 * (9 / 10)),
    max MMR_FLOOR (ALPHA_MID * (1 / round_leverage (10 * (9 / 10)))), none, none⟩ : SRec) = _
  rw [h1, h2]

/-- Topmost-threshold body with present, nonzero street data. -/
theorem suggestRec_top_some (S L M : ℚ) (hL : L ≠ 0) :
    suggestRec true S (some L, some M) =
      ⟨S, round_leverage (L * (11 / 10)), 1 / round_leverage (L * (11 / 10)),
        min (max MMR_FLOOR (ALPHA_TOP * (1 / round_leverage (L * (11 / 10)))))
          (M * (9 / 10)), some L, some M⟩ := by
  show (⟨S, round_leverage ((if L = 0 then 10 else L) * (11 / 10)),
    1 / round_leverage ((if L = 0 then 10 else L) * (11 / 10)),
    min (max MMR_FLOOR (ALPHA_TOP * (1 / round_leverage ((if L = 0 then 10 else L) * (11 / 10)))))
      (M * (9 / 10)), some L, some M⟩ : SRec) = _
  rw [if_neg hL]

/-- Non-topmost body with present, nonzero street data. -/
theorem suggestRec_mid_some (S L M : ℚ) (hL : L ≠ 0) :
    suggestRec false S (some L, some M) =
      ⟨S, round_leverage (L * (9 / 10)), 1 / round_leverage (L * (9 / 10)),
        min (max MMR_FLOOR (ALPHA_MID * (1 / round_leverage (L * (9 / 10))))) M,
        some L, some M⟩ := by
  show (⟨S, round_leverage ((if L = 0 then 10 else L) * (9 / 10)),
    1 / round_leverage ((if L = 0 then 10 else L) * (9 / 10)),
    min (max MMR_FLOOR (ALPHA_MID * (1 / round_leverage ((if L = 0 then 10 else L) * (9 / 10))))) M,
    some L, some M⟩ : SRec) = _
  rw [if_neg hL]

end StApp

/-! ## Claim C6 -/

/-- Payload covering only the 100000 and 200000 minor thresholds; the 20000
threshold is uncovered (the streamlit selector needs `S >=` some cap). -/
def c6Payload : Payload :=
  [("AUSDT",
    [("BINANCE", [[Cell.str "BINANCE", Cell.num 5, Cell.num 50000, Cell.num (1 / 100)]])])]

/-- **C6**.  An uncovered threshold (street data `(None, None)`) still yields
a suggested tier, computed from the default base leverage 10
(`round_to_increment(11) = round_to_increment(9) = 10`, mmr `1/25` for the
topmost threshold, `1/20` otherwise); the schedule always has one record per
threshold; and every record depends only on its own threshold's street data,
so an uncovered threshold never changes the other records. -/
theorem c6_uncovered_threshold_defaults (majors : List String) (sym : String)
    (payload payload' : Payload) (i : ℕ) (S : ℚ)
    (hS : (StApp.tiersFor majors sym)[i]? = some S) :
    (StApp.build_suggest_rule_table majors sym payload).length =
      (StApp.tiersFor majors sym).length ∧
    (StApp.street_for_symbol payload sym S = (none, none) →
      ((StApp.build_suggest_rule_table majors sym payload).map StApp.SRec.lev)[i]? =
        some 10 ∧
      ((StApp.build_suggest_rule_table majors sym payload).map StApp.SRec.mmr)[i]? =
        some (if i = (StApp.tiersFor majors sym).length - 1 then 1 / 25 else 1 / 20)) ∧
    (StApp.street_for_symbol payload sym S = StApp.street_for_symbol payload' sym S →
      (StApp.build_suggest_rule_table majors sym payload)[i]? =
        (StApp.build_suggest_rule_table majors sym payload')[i]?) := by
  refine ⟨StApp.build_suggest_length majors sym payload, fun hstreet => ?_, fun hagree => ?_⟩
  · have hkey := StApp.build_suggest_getElem majors sym payload i hS
    rw [hstreet] at hkey
    by_cases htop : i = (StApp.tiersFor majors sym).length - 1
    · rw [decide_eq_true htop, StApp.suggestRec_top_none] at hkey
      rw [if_pos htop]
      constructor <;> rw [List.getElem?_map, hkey] <;> rfl
    · rw [decide_eq_false htop, StApp.suggestRec_mid_none] at hkey
      rw [if_neg htop]
      constructor <;> rw [List.getElem?_map, hkey] <;> rfl
  · rw [StApp.build_suggest_getElem majors sym payload i hS,
      StApp.build_suggest_getElem majors sym payload' i hS, hagree]

/-- **C6** witness: at the uncovered minor threshold 20000 of `c6Payload`
the schedule still has 3 records and record 0 carries the default
leverage 10 and mmr `1/20`. -/
theorem c6_witness :
    (StApp.build_suggest_rule_table [] "AUSDT" c6Payload).length = 3 ∧
    ((StApp.build_suggest_rule_table [] "AUSDT" c6Payload).map StApp.SRec.lev)[0]? =
      some 10 ∧
    ((StApp.build_suggest_rule_table [] "AUSDT" c6Payload).map StApp.SRec.mmr)[0]? =
      some (1 / 20) := by
  have h := c6_uncovered_threshold_defaults [] "AUSDT" c6Payload c6Payload 0 20000
    (by with_unfolding_all rfl)
  have h2 := h.2.1 (by with_unfolding_all rfl)
  refine ⟨h.1.trans (by with_unfolding_all rfl), h2.1, ?_⟩
  rw [h2.2]
  exact congrArg some (by with_unfolding_all rfl)

/-! ## Claim C2 -/

/-- Payload whose street data at the topmost minor threshold 200000 is
`(50x, mmr 0.01)`. -/
def c2Payload : Payload :=
  [("BUSDT",
    [("BINANCE", [[Cell.str "BINANCE", Cell.num 50, Cell.num 200000, Cell.num (1 / 100)]])])]

/-- Payload whose street leverage at the topmost minor threshold is present
but zero. -/
def c2ZeroPayload : Payload :=
  [("XUSDT",
    [("BINANCE", [[Cell.str "BINANCE", Cell.num 0, Cell.num 200000, Cell.num (1 / 100)]])])]

/-- **C2** (amended).  For every threshold whose street leverage is present
and *nonzero* and whose street mmr is present, `build_suggest_rule_table`
computes the suggestion exactly by the markup policy: topmost threshold
`lev = round_to_increment(L*1.10)`, `mmr = min(max(FLOOR, α_top/lev), M*0.90)`;
other thresholds `lev = round_to_increment(L*0.90)`,
`mmr = min(max(FLOOR, α_mid/lev), M)`.  (A present but zero street leverage
falls back to the default base 10 through Python's `or`, so the original
claim fails there; see the counterexample.) -/
theorem c2_markup_policy (majors : List String) (sym : String) (payload : Payload)
    (i : ℕ) (S L M : ℚ) (hS : (StApp.tiersFor majors sym)[i]? = some S)
    (hstreet : StApp.street_for_symbol payload sym S = (some L, some M)) (hL : L ≠ 0) :
    (i = (StApp.tiersFor majors sym).length - 1 →
      ((StApp.build_suggest_rule_table majors sym payload).map StApp.SRec.lev)[i]? =
        some (StApp.round_leverage (L * (11 / 10))) ∧
      ((StApp.build_suggest_rule_table majors sym payload).map StApp.SRec.mmr)[i]? =
        some (min (max StApp.MMR_FLOOR
          (StApp.ALPHA_TOP * (1 / StApp.round_leverage (L * (11 / 10)))))
          (M * (9 / 10)))) ∧
    (i ≠ (StApp.tiersFor majors sym).length - 1 →
      ((StApp.build_suggest_rule_table majors sym payload).map StApp.SRec.lev)[i]? =
        some (StApp.round_leverage (L * (9 / 10))) ∧
      ((StApp.build_suggest_rule_table majors sym payload).map StApp.SRec.mmr)[i]? =
        some (min (max StApp.MMR_FLOOR
          (StApp.ALPHA_MID * (1 / StApp.round_leverage (L * (9 / 10))))) M)) := by
  have hkey := StApp.build_suggest_getElem majors sym payload i hS
  rw [hstreet] at hkey
  constructor
  · intro htop
    rw [decide_eq_true htop, StApp.suggestRec_top_some S L M hL] at hkey
    constructor <;> rw [List.getElem?_map, hkey] <;> rfl
  · intro htop
    rw [decide_eq_false htop, StApp.suggestRec_mid_some S L M hL] at hkey
    constructor <;> rw [List.getElem?_map, hkey] <;> rfl

/-- **C2** counterexample: on `c2ZeroPayload` the street leverage at the
topmost threshold is present (`0.0`), yet the suggested leverage is 10
(default base), not `round_to_increment(0 × 1.10) = 0` as the literal policy
formula would give. -/
theorem c2_zero_leverage_counterexample :
    StApp.street_for_symbol c2ZeroPayload "XUSDT" 200000 = (some 0, some (1 / 100)) ∧
    ((StApp.build_suggest_rule_table [] "XUSDT" c2ZeroPayload).map StApp.SRec.lev)[2]? =
      some 10 ∧
    StApp.round_leverage (0 * (11 / 10)) = 0 ∧
    ((10 : ℚ) ≠ StApp.round_leverage (0 * (11 / 10))) := by
  refine ⟨by with_unfolding_all rfl, ?_, by with_unfolding_all rfl, ?_⟩
  · have hkey := StApp.build_suggest_getElem [] "XUSDT" c2ZeroPayload 2
      (S := 200000) (by with_unfolding_all rfl)
    rw [show StApp.street_for_symbol c2ZeroPayload "XUSDT" 200000 =
      (some 0, some (1 / 100)) from by with_unfolding_all rfl] at hkey
    rw [List.getElem?_map, hkey]
    exact congrArg some (by with_unfolding_all rfl)
  · intro h
    have : StApp.round_leverage (0 * (11 / 10)) = 0 := by with_unfolding_all rfl
    rw [this] at h
    exact absurd h (by norm_num)

/-- **C2** witness: the spec scenario.  Street `(50x, 0.01)` at the topmost
threshold yields suggested leverage `55` and mmr
`max(0.0002, 0.4/55) = 2/275 ≈ 0.00727`, below the `0.009` ceiling. -/
theorem c2_witness :
    ((StApp.build_suggest_rule_table [] "BUSDT" c2Payload).map StApp.SRec.lev)[2]? =
      some 55 ∧
    ((StApp.build_suggest_rule_table [] "BUSDT" c2Payload).map StApp.SRec.mmr)[2]? =
      some (2 / 275) := by
  have h := (c2_markup_policy [] "BUSDT" c2Payload 2 200000 50 (1 / 100)
    (by with_unfolding_all rfl) (by with_unfolding_all rfl)
    (by norm_num)).1 (by with_unfolding_all rfl)
  refine ⟨?_, ?_⟩
  · rw [h.1]
    exact congrArg some (by with_unfolding_all rfl)
  · rw [h.2]
    exact congrArg some (by with_unfolding_all rfl)

/-! ## Claim C4 -/

/-- Payload with street leverage `2x` at the topmost minor threshold: valid,
tiny data. -/
def c4Payload : Payload :=
  [("AUSDT",
    [("BINANCE", [[Cell.str "BINANCE", Cell.num 2, Cell.num 200000, Cell.num (1 / 200)]])])]

/-- **C4** (code-bug evaluation).  With street leverage `2.0` the topmost
suggestion computes `_round_leverage(2 × 1.10) = 0` (clamp to `[1, 1000]`
gives `2.2`, `round(2.2 / 5) = 0`), so Python evaluates `1.0 / 0.0` and
`build_suggest_rule_table` raises `ZeroDivisionError` — the claim that it
never raises and that the divisor is never zero is right about the intent
(the clamp aims at `[1, LEV_MAX]`) but wrong about the code.  In the
rational model `1 / 0 = 0`, so the record materializes with `lev = 0` and
`im = 1 / 0`. -/
theorem c4_round_leverage_zero :
    StApp.street_for_symbol c4Payload "AUSDT" 200000 = (some 2, some (1 / 200)) ∧
    StApp.round_leverage (2 * (11 / 10)) = 0 ∧
    ((StApp.build_suggest_rule_table [] "AUSDT" c4Payload).map StApp.SRec.lev)[2]? =
      some 0 ∧
    ((StApp.build_suggest_rule_table [] "AUSDT" c4Payload).map StApp.SRec.im)[2]? =
      some ((1 : ℚ) / 0) := by
  have hkey := StApp.build_suggest_getElem [] "AUSDT" c4Payload 2
    (S := 200000) (by with_unfolding_all rfl)
  rw [show StApp.street_for_symbol c4Payload "AUSDT" 200000 =
    (some 2, some (1 / 200)) from by with_unfolding_all rfl] at hkey
  refine ⟨by with_unfolding_all rfl, by with_unfolding_all rfl, ?_, ?_⟩
  · rw [List.getElem?_map, hkey]
    exact congrArg some (by with_unfolding_all rfl)
  · rw [List.getElem?_map, hkey]
    exact congrArg some (by with_unfolding_all rfl)

/-! ## Claim C5 -/

namespace StApp

/-- The keys of the dict after one `setdefault`-append: unchanged when the
key exists, appended otherwise. -/
theorem upsert_fst (m : List (ℚ × List (String × Option ℚ × Option ℚ)))
    (l : ℚ) (e : String × Option ℚ × Option ℚ) :
    (upsert m l e).map Prod.fst =
      if l ∈ m.map Prod.fst then m.map Prod.fst else m.map Prod.fst ++ [l] := by
  induction m with
  | nil => simp [upsert]
  | cons kv t ih =>
    rcases kv with ⟨k, es⟩
    by_cases hk : k = l
    · subst hk
      simp [upsert]
    · have hstep : upsert ((k, es) :: t) l e = (k, es) :: upsert t l e := by
        show (if k = l then (k, es ++ [e]) :: t else (k, es) :: upsert t l e) = _
        rw [if_neg hk]
      rw [hstep]
      have hcond : (l ∈ (((k, es) :: t).map Prod.fst)) ↔ l ∈ t.map Prod.fst := by
        rw [List.map_cons, List.mem_cons]
        exact ⟨fun h => h.resolve_left (Ne.symm hk), Or.inr⟩
      by_cases hm : l ∈ t.map Prod.fst
      · rw [if_pos (hcond.mpr hm), List.map_cons, List.map_cons, ih, if_pos hm]
      · rw [if_neg (fun hc => hm (hcond.mp hc)), List.map_cons, List.map_cons, ih,
          if_neg hm, List.cons_append]

/-- The fold of `setdefault`-appends keeps keys nodup and collects exactly
the leverage values seen. -/
theorem foldUpsert_keys (entries : List (ℚ × String × Option ℚ × Option ℚ)) :
    ∀ m : List (ℚ × List (String × Option ℚ × Option ℚ)),
      (m.map Prod.fst).Nodup →
      ((entries.foldl (fun m ent => upsert m ent.1 ent.2) m).map Prod.fst).Nodup ∧
      ∀ k : ℚ, k ∈ (entries.foldl (fun m ent => upsert m ent.1 ent.2) m).map Prod.fst ↔
        (k ∈ m.map Prod.fst ∨ k ∈ entries.map Prod.fst) := by
  induction entries with
  | nil => intro m hm; simpa using hm
  | cons e t ih =>
    intro m hm
    have hkeys := upsert_fst m e.1 e.2
    have hnodup : ((upsert m e.1 e.2).map Prod.fst).Nodup := by
      rw [hkeys]
      by_cases hmem : e.1 ∈ m.map Prod.fst
      · rw [if_pos hmem]; exact hm
      · rw [if_neg hmem]
        simp [List.nodup_append, hm, hmem]
    have hrec := ih (upsert m e.1 e.2) hnodup
    refine ⟨by simpa using hrec.1, fun k => ?_⟩
    rw [List.foldl_cons, hrec.2 k, hkeys]
    by_cases hmem : e.1 ∈ m.map Prod.fst
    · rw [if_pos hmem]
      constructor
      · intro h
        rcases h with h | h
        · exact Or.inl h
        · exact Or.inr (by rw [List.map_cons]; exact List.mem_cons_of_mem _ h)
      · intro h
        rcases h with h | h
        · exact Or.inl h
        · rw [List.map_cons] at h
          rcases List.mem_cons.mp h with rfl | h2
          · exact Or.inl hmem
          · exact Or.inr h2
    · rw [if_neg hmem]
      constructor
      · intro h
        rcases h with h | h
        · rcases List.mem_append.mp h with h1 | h1
          · exact Or.inl h1
          · rw [List.mem_singleton] at h1
            subst h1
            exact Or.inr (by rw [List.map_cons]; exact List.mem_cons_self _ _)
        · exact Or.inr (by rw [List.map_cons]; exact List.mem_cons_of_mem _ h)
      · intro h
        rcases h with h | h
        · exact Or.inl (List.mem_append_left _ h)
        · rw [List.map_cons] at h
          rcases List.mem_cons.mp h with rfl | h2
          · exact Or.inl (List.mem_append_right _ (List.mem_singleton_self _))
          · exact Or.inr h2

end StApp

/-- Equal-cap payload for the tolerance question: leverage `20.0` from one
venue and `19.999999` from another. -/
def c5Payload : Payload :=
  [("AUSDT",
    [("BINANCE", [[Cell.str "BINANCE", Cell.num 20, Cell.num 100000, Cell.num (1 / 100)]]),
     ("WEEX",
      [[Cell.str "WEEX", Cell.num (19999999 / 1000000), Cell.num 90000, Cell.num (1 / 50)]])])]

/-- **C5** (amended).  `build_aggregate_union_table` groups strictly by the
exact parsed leverage value: the output has one row per distinct leverage
(no duplicates, and exactly the leverages occurring in the four venues'
parsed rows).  There is no tolerance or precision normalization, so
`20.0` and `19.999999` form two buckets, not one (see the counterexample). -/
theorem c5_union_groups_by_exact_leverage (sym : String) (payload : Payload) :
    ((StApp.build_aggregate_union_table sym payload).map StApp.URec.lev).Nodup ∧
    (∀ l : ℚ, l ∈ (StApp.build_aggregate_union_table sym payload).map StApp.URec.lev ↔
      l ∈ (StApp.unionEntries sym payload).map Prod.fst) := by
  have hkeys := StApp.foldUpsert_keys (StApp.unionEntries sym payload) [] (by simp)
  have hby : StApp.byLev sym payload =
      (StApp.unionEntries sym payload).foldl (fun m ent => StApp.upsert m ent.1 ent.2) [] := rfl
  unfold StApp.build_aggregate_union_table
  by_cases hE : (StApp.byLev sym payload).isEmpty
  · rw [if_pos hE]
    rcases List.isEmpty_iff.mp hE with h0
    refine ⟨by simp, fun l => ?_⟩
    simp only [List.map_nil, List.not_mem_nil, false_iff]
    intro hl
    have hmem := (hkeys.2 l).mpr (Or.inr hl)
    rw [← hby, h0] at hmem
    simp at hmem
  · rw [if_neg hE]
    have hmap : (((StApp.byLev sym payload).insertionSort (fun a b => a.1 ≤ b.1)).map
        (fun kv => (⟨kv.1, (StApp.maxWithSrc kv.2).1, (StApp.maxWithSrc kv.2).2,
          (StApp.minWithSrc kv.2).1, (StApp.minWithSrc kv.2).2⟩ : StApp.URec))).map
          StApp.URec.lev =
        ((StApp.byLev sym payload).insertionSort (fun a b => a.1 ≤ b.1)).map Prod.fst := by
      rw [List.map_map]; rfl
    have hperm : List.Perm
        (((StApp.byLev sym payload).insertionSort (fun a b => a.1 ≤ b.1)).map Prod.fst)
        ((StApp.byLev sym payload).map Prod.fst) :=
      (List.perm_insertionSort (fun a b => a.1 ≤ b.1) (StApp.byLev sym payload)).map Prod.fst
    constructor
    · rw [hmap]
      exact hperm.nodup_iff.mpr (hby ▸ hkeys.1)
    · intro l
      rw [hmap]
      rw [hperm.mem_iff]
      rw [hby, hkeys.2 l]
      simp

/-- **C5** counterexample: on `c5Payload` the near-equal leverages `20.0`
and `19.999999` produce two aggregate-union rows, not one. -/
theorem c5_two_buckets_counterexample :
    (StApp.build_aggregate_union_table "AUSDT" c5Payload).map StApp.URec.lev =
      [19999999 / 1000000, 20] ∧
    (StApp.build_aggregate_union_table "AUSDT" c5Payload).length = 2 ∧
    (2 : ℕ) ≠ 1 := by
  refine ⟨by with_unfolding_all rfl, by with_unfolding_all rfl, by norm_num⟩

/-- **C5** witness: the amended grouping theorem instantiated on `c5Payload`:
both distinct leverages are their own bucket keys. -/
theorem c5_witness :
    (20 : ℚ) ∈ (StApp.build_aggregate_union_table "AUSDT" c5Payload).map StApp.URec.lev ∧
    (19999999 / 1000000 : ℚ) ∈
      (StApp.build_aggregate_union_table "AUSDT" c5Payload).map StApp.URec.lev :=
  ⟨((c5_union_groups_by_exact_leverage "AUSDT" c5Payload).2 20).mpr (by
      rw [show (StApp.unionEntries "AUSDT" c5Payload).map Prod.fst =
        [20, 19999999 / 1000000] from by with_unfolding_all rfl]
      exact List.mem_cons_self _ _),
   ((c5_union_groups_by_exact_leverage "AUSDT" c5Payload).2 (19999999 / 1000000)).mpr (by
      rw [show (StApp.unionEntries "AUSDT" c5Payload).map Prod.fst =
        [20, 19999999 / 1000000] from by with_unfolding_all rfl]
      exact List.mem_cons_of_mem _ (List.mem_cons_self _ _))⟩

/-! ## Claim C8: parse-number characterization -/

theorem mem_dropWhile_of_neg {α : Type} {p : α → Bool} {c : α} {cs : List α}
    (hc : ¬p c) (hm : c ∈ cs) : c ∈ cs.dropWhile p := by
  induction cs with
  | nil => cases hm
  | cons x t ih =>
    rw [List.dropWhile_cons]
    by_cases hx : p x
    · rw [if_pos hx]
      rcases List.mem_cons.mp hm with rfl | h2
      · exact absurd hx hc
      · exact ih h2
    · rw [if_neg hx]
      exact hm

theorem mem_of_mem_dropWhile {α : Type} {p : α → Bool} {c : α} {cs : List α}
    (hm : c ∈ cs.dropWhile p) : c ∈ cs := by
  induction cs with
  | nil => simp at hm
  | cons x t ih =>
    rw [List.dropWhile_cons] at hm
    by_cases hx : p x
    · rw [if_pos hx] at hm
      exact List.mem_cons_of_mem x (ih hm)
    · rw [if_neg hx] at hm
      exact hm

theorem not_ws_of_digit {c : Char} (h : c.isDigit) : ¬c.isWhitespace := by
  intro hw
  simp [Char.isWhitespace] at hw
  rcases hw with ((rfl | rfl) | rfl) | rfl <;> exact absurd h (by decide)

/-- Stripping only removes whitespace, so non-whitespace characters stay. -/
theorem mem_pytrim_of_not_ws {c : Char} {cs : List Char}
    (hws : ¬c.isWhitespace) (hm : c ∈ cs) : c ∈ pytrim cs := by
  unfold pytrim
  rw [List.mem_reverse]
  exact mem_dropWhile_of_neg hws (by
    rw [List.mem_reverse]
    exact mem_dropWhile_of_neg hws hm)

theorem mem_of_mem_pytrim {c : Char} {cs : List Char} (hm : c ∈ pytrim cs) :
    c ∈ cs := by
  unfold pytrim at hm
  rw [List.mem_reverse] at hm
  have h2 := mem_of_mem_dropWhile hm
  rw [List.mem_reverse] at h2
  exact mem_of_mem_dropWhile h2

/-- A leading digit guarantees an anchored match of the number pattern. -/
theorem matchNumCore_isSome_of_head_digit {c : Char} {rest : List Char}
    (hc : c.isDigit) : (matchNumCore (c :: rest)).isSome := by
  have hd : ((spanDigits (c :: rest)).1).isEmpty = false := by
    simp [spanDigits, List.takeWhile_cons, hc]
  simp only [matchNumCore]
  split
  · split
    · simp [hd]
    · simp
  · simp [hd]

/-- Without any digit there is no anchored match. -/
theorem matchNumCore_eq_none_of_no_digit {cs : List Char}
    (h : ∀ c ∈ cs, ¬c.isDigit) : matchNumCore cs = none := by
  rcases hcs : cs with _ | ⟨c, rest⟩
  · rfl
  · have hc : ¬c.isDigit := h c (by rw [hcs]; simp)
    have hd : (spanDigits (c :: rest)).1 = [] := by
      simp [spanDigits, List.takeWhile_cons, hc]
    have hr : (spanDigits (c :: rest)).2 = c :: rest := by
      simp [spanDigits, List.dropWhile_cons, hc]
    simp only [matchNumCore, hd, hr]
    split
    · rename_i rest2 heq
      have hrest2 : ∀ x ∈ rest2, ¬x.isDigit := by
        intro x hx
        apply h x
        rw [hcs, heq]
        exact List.mem_cons_of_mem _ hx
      have he : (spanDigits rest2).1 = [] := by
        rcases rest2 with _ | ⟨c2, r2⟩
        · rfl
        · simp [spanDigits, List.takeWhile_cons, hrest2 c2 (by simp)]
      simp [he]
    · simp

theorem matchNumAt_isSome_of_head_digit {c : Char} {rest : List Char}
    (hc : c.isDigit) : (matchNumAt (c :: rest)).isSome := by
  have hsign : ¬(c = '+' ∨ c = '-') := by
    rintro (rfl | rfl) <;> exact absurd hc (by decide)
  have heq : matchNumAt (c :: rest) = matchNumCore (c :: rest) := by
    show (if c = '+' ∨ c = '-' then
      (matchNumCore rest).map (fun n => { n with sign := some c })
      else matchNumCore (c :: rest)) = _
    rw [if_neg hsign]
  rw [heq]
  exact matchNumCore_isSome_of_head_digit hc

theorem matchNumAt_eq_none_of_no_digit {cs : List Char}
    (h : ∀ c ∈ cs, ¬c.isDigit) : matchNumAt cs = none := by
  rcases cs with _ | ⟨c, rest⟩
  · rfl
  · by_cases hsign : c = '+' ∨ c = '-'
    · have heq : matchNumAt (c :: rest) =
          (matchNumCore rest).map (fun n => { n with sign := some c }) := by
        show (if c = '+' ∨ c = '-' then
          (matchNumCore rest).map (fun n => { n with sign := some c })
          else matchNumCore (c :: rest)) = _
        rw [if_pos hsign]
      rw [heq,
        matchNumCore_eq_none_of_no_digit (fun x hx => h x (List.mem_cons_of_mem _ hx))]
      rfl
    · have heq : matchNumAt (c :: rest) = matchNumCore (c :: rest) := by
        show (if c = '+' ∨ c = '-' then
          (matchNumCore rest).map (fun n => { n with sign := some c })
          else matchNumCore (c :: rest)) = _
        rw [if_neg hsign]
      rw [heq]
      exact matchNumCore_eq_none_of_no_digit h

/-- `re.search` of the number pattern fails exactly on digit-free text. -/
theorem searchNum_eq_none_iff (cs : List Char) :
    searchNum cs = none ↔ ∀ c ∈ cs, ¬c.isDigit := by
  induction cs with
  | nil => simp [searchNum]
  | cons c rest ih =>
    constructor
    · intro h
      rcases hma : matchNumAt (c :: rest) with _ | n
      · have hrest : searchNum rest = none := by
          unfold searchNum at h
          rw [hma] at h
          exact h
        intro x hx
        rcases List.mem_cons.mp hx with rfl | h2
        · intro hdig
          have := @matchNumAt_isSome_of_head_digit _ rest hdig
          rw [hma] at this
          simp at this
        · exact (ih.mp hrest) x h2
      · unfold searchNum at h
        rw [hma] at h
        simp at h
    · intro h
      unfold searchNum
      rw [matchNumAt_eq_none_of_no_digit h]
      exact ih.mpr (fun x hx => h x (List.mem_cons_of_mem _ hx))

/-- `parse_number` is absent exactly when no numeric value is derivable:
`None` input, or a string without a single digit. -/
theorem parse_number_eq_none_iff (c : Cell) :
    TableMake.parse_number c = none ↔
      (c = Cell.null ∨ ∃ s, c = Cell.str s ∧ ∀ ch ∈ s.data, ¬ch.isDigit) := by
  rcases c with _ | q | s
  · simp [TableMake.parse_number]
  · simp [TableMake.parse_number]
  · simp only [TableMake.parse_number, regexNum]
    constructor
    · intro h
      have hnone : searchNum (pytrim s.data) = none := by
        rcases hh : searchNum (pytrim s.data) with _ | n
        · rfl
        · rw [Option.map_eq_none'] at h
          exact absurd h (by rw [hh]; simp)
      have hnd := (searchNum_eq_none_iff _).mp hnone
      refine Or.inr ⟨s, rfl, fun ch hch hdig => ?_⟩
      exact hnd ch (mem_pytrim_of_not_ws (not_ws_of_digit hdig) hch) hdig
    · intro h
      rcases h with h | ⟨s2, hs2, hnd⟩
      · exact absurd h (by simp)
      · have hseq : s = s2 := by injection hs2
        subst hseq
        rw [Option.map_eq_none']
        exact (searchNum_eq_none_iff _).mpr
          (fun x hx => hnd x (mem_of_mem_pytrim hx))

/-- **C8** (amended).  Normalization is absent exactly when no numeric value
is derivable (`None`, or a digit-free string), and a derivable zero is
preserved for mmr fields rendered through `to_percent_str` (`0` becomes
`"0.00%"`, never blank) and for caps in the mexc-style adapters; the weex
adapter, whose mmr cell goes through `t.get("mmr") or ""`, turns a zero mmr
into a blank.  (The binance adapter additionally loses a zero cap through
its `or` fallback; see the counterexample.) -/
theorem c8_zero_vs_absent :
    (∀ c : Cell, TableMake.parse_number c = none ↔
      (c = Cell.null ∨ ∃ s, c = Cell.str s ∧ ∀ ch ∈ s.data, ¬ch.isDigit)) ∧
    TableMake.to_percent_str (Cell.num 0) = "0.00%" ∧
    TableMake.build_rows_mexc [⟨Cell.num 5, Cell.num 0, Cell.num 0⟩] =
      [[Cell.str "MECX", Cell.str "5X", Cell.num 0, Cell.str "0.00%"]] ∧
    TableMake.build_rows_weex [⟨Cell.num 5, Cell.str "0~100000", Cell.num 0⟩] =
      [[Cell.str "WEEX", Cell.str "5X", Cell.num 100000, Cell.str ""]] := by
  refine ⟨parse_number_eq_none_iff, ?_, ?_, ?_⟩
  · with_unfolding_all rfl
  · with_unfolding_all rfl
  · with_unfolding_all rfl

/-- **C8** counterexample: in the binance adapter a raw tier with
`notional_usdt = 0` (a derivable zero) is emitted with an *absent* cap,
because `parse_number(...) or parse_number(t.get("bracketNotionalCap"))`
treats the float `0.0` as falsy and the fallback key is never set by
`load_binance`. -/
theorem c8_binance_zero_cap_counterexample :
    TableMake.parse_number (Cell.num 0) = some 0 ∧
    TableMake.build_rows_binance [⟨Cell.num 5, Cell.num 0, Cell.null, Cell.num (1 / 100)⟩] =
      [[Cell.str "BINANCE", Cell.str "5X", Cell.null, Cell.str "1.00%"]] ∧
    Cell.null ≠ Cell.num 0 := by
  refine ⟨by with_unfolding_all rfl, by with_unfolding_all rfl, by decide⟩

/-- **C8** witness: the absence characterization applied at a digit-free
string, and a digit-bearing zero string parsing to `0`. -/
theorem c8_witness :
    TableMake.parse_number (Cell.str "n/a") = none ∧
    TableMake.parse_number (Cell.str "0") = some 0 :=
  ⟨(c8_zero_vs_absent.1 (Cell.str "n/a")).mpr (Or.inr ⟨"n/a", rfl, by decide⟩),
   by with_unfolding_all rfl⟩

/-! ## Claim C9 -/

/-- **C9**.  `_build_groups` partitions the tradable USDT universe: majors
are exactly the cmc-ranked names that are tradable, minors are exactly the
tradable symbols not in majors; every tradable symbol lands in exactly one
group and both groups contain only tradable symbols. -/
theorem c9_build_groups_partition (cmcNames : List String)
    (pairs : List (String × String)) :
    (∀ s, s ∈ (MakeRules.build_groups cmcNames pairs).1 ↔
      (s ∈ MakeRules.cmcMajors cmcNames ∧ s ∈ MakeRules.allSyms pairs)) ∧
    (∀ s, s ∈ (MakeRules.build_groups cmcNames pairs).2 ↔
      (s ∈ MakeRules.allSyms pairs ∧ s ∉ (MakeRules.build_groups cmcNames pairs).1)) ∧
    (∀ s ∈ MakeRules.allSyms pairs,
      (s ∈ (MakeRules.build_groups cmcNames pairs).1 ∧
        s ∉ (MakeRules.build_groups cmcNames pairs).2) ∨
      (s ∈ (MakeRules.build_groups cmcNames pairs).2 ∧
        s ∉ (MakeRules.build_groups cmcNames pairs).1)) ∧
    (∀ s ∈ (MakeRules.build_groups cmcNames pairs).1, s ∈ MakeRules.allSyms pairs) ∧
    (∀ s ∈ (MakeRules.build_groups cmcNames pairs).2, s ∈ MakeRules.allSyms pairs) := by
  have h1 : ∀ s, s ∈ (MakeRules.build_groups cmcNames pairs).1 ↔
      (s ∈ MakeRules.cmcMajors cmcNames ∧ s ∈ MakeRules.allSyms pairs) := by
    intro s
    show s ∈ (MakeRules.cmcMajors cmcNames).filter
      (fun s => s ∈ MakeRules.allSyms pairs) ↔ _
    rw [List.mem_filter]
    simp
  have h2 : ∀ s, s ∈ (MakeRules.build_groups cmcNames pairs).2 ↔
      (s ∈ MakeRules.allSyms pairs ∧ s ∉ (MakeRules.build_groups cmcNames pairs).1) := by
    intro s
    show s ∈ ((MakeRules.allSyms pairs).dedup.filter
      (fun s => s ∉ (MakeRules.cmcMajors cmcNames).filter
        (fun s => s ∈ MakeRules.allSyms pairs))).insertionSort (fun a b => a ≤ b) ↔ _
    rw [List.mem_insertionSort, List.mem_filter, List.mem_dedup]
    simp only [decide_eq_true_eq]
    constructor
    · intro hh
      exact ⟨hh.1, hh.2⟩
    · intro hh
      exact ⟨hh.1, hh.2⟩
  refine ⟨h1, h2, fun s hs => ?_, fun s hs => ((h1 s).mp hs).2,
    fun s hs => ((h2 s).mp hs).1⟩
  by_cases hmaj : s ∈ (MakeRules.build_groups cmcNames pairs).1
  · refine Or.inl ⟨hmaj, fun hmin => ?_⟩
    exact absurd hmaj ((h2 s).mp hmin).2
  · exact Or.inr ⟨(h2 s).mpr ⟨hs, hmaj⟩, hmaj⟩

/-- **C9** witness: with cmc list `["btc"]` and tradable pairs
`btc/usdt`, `eth/usdt`, the partition puts BTCUSDT in majors and ETHUSDT in
minors. -/
theorem c9_witness :
    "BTCUSDT" ∈ (MakeRules.build_groups ["btc"] [("btc", "usdt"), ("eth", "usdt")]).1 ∧
    "ETHUSDT" ∈ (MakeRules.build_groups ["btc"] [("btc", "usdt"), ("eth", "usdt")]).2 := by
  have h := c9_build_groups_partition ["btc"] [("btc", "usdt"), ("eth", "usdt")]
  have hcmc : MakeRules.cmcMajors ["btc"] = ["BTCUSDT"] := by with_unfolding_all rfl
  have hall : MakeRules.allSyms [("btc", "usdt"), ("eth", "usdt")] =
      ["BTCUSDT", "ETHUSDT"] := by with_unfolding_all rfl
  constructor
  · exact (h.1 "BTCUSDT").mpr ⟨by rw [hcmc]; simp, by rw [hall]; simp⟩
  · refine (h.2.1 "ETHUSDT").mpr ⟨by rw [hall]; simp, fun hmem => ?_⟩
    have := ((h.1 "ETHUSDT").mp hmem).1
    rw [hcmc] at this
    simp at this
